import Mathlib

/-!
Verification of the `SubtitleManager` component (subtitle ingestion and
rendering engine) of the Moonfin Tizen client.

The JavaScript source is embedded shallowly:

* JS numbers are modelled as `JNum := Option ℚ`, where `none` plays the
  role of `NaN` and `some q` is a finite IEEE-754 binary64 value
  represented exactly as a rational.  Arithmetic (`jsAdd`, `jsMul`)
  rounds each intermediate result to the nearest representable double
  via `roundDouble` (round to nearest, ties to even), exactly as 64-bit
  float hardware does for the magnitudes occurring here (no overflow or
  subnormals are reachable from timestamp parsing).
* Strings are modelled as `List Char`.
* The mutable `SubtitleManager` instance is modelled as an explicit
  state record `SubState`; each public method becomes a state-stepping
  function returning a `StepRes` that also records whether the call
  raised a `TypeError` (null dereference) and how many visual DOM
  mutations it performed.  The asynchronous subtitle fetch is split
  into the synchronous part of `loadTrack` and a separate
  response-arrival step, so stale responses are representable.
* `Reach` is the set of states reachable through the public interface
  by calls that complete normally.
-/

attribute [local semireducible] Rat.add Rat.mul Rat.inv Rat.sub

set_option maxRecDepth 8000

/-! ## Exact model of IEEE-754 binary64 rounding over ℚ -/

/-- Fuel-driven binary length of a natural number: `bitLen n` is the
number of binary digits of `n` (`0` for `0`), defined structurally so
that the kernel can evaluate it. -/
def bitLenAux : Nat → Nat → Nat
  | 0, _ => 0
  | fuel+1, n => if n = 0 then 0 else bitLenAux fuel (n / 2) + 1

/-- Binary length of a natural number. -/
def bitLen (n : Nat) : Nat := bitLenAux n n

/-- Integer power of two as a rational, computably. -/
def qpow2 (e : ℤ) : ℚ :=
  if 0 ≤ e then ((2 ^ e.toNat : ℕ) : ℚ) else (((2 ^ (-e).toNat : ℕ) : ℚ))⁻¹

/-- Floor of the base-2 logarithm of a positive rational. -/
def floorLog2 (q : ℚ) : ℤ :=
  let e0 : ℤ := (bitLen q.num.natAbs : ℤ) - (bitLen q.den : ℤ)
  if q < qpow2 e0 then e0 - 1 else e0

/-- Round a rational to the nearest integer, ties to even. -/
def rdEven (x : ℚ) : ℤ :=
  let f := Rat.floor x
  let r := x - f
  if r < 1/2 then f
  else if 1/2 < r then f + 1
  else if f % 2 = 0 then f else f + 1

/-- Round a positive rational to 53 bits of precision
(round to nearest, ties to even). -/
def roundPos (q : ℚ) : ℚ :=
  let e : ℤ := floorLog2 q - 52
  (rdEven (q * qpow2 (-e)) : ℤ) * qpow2 e

/-- Correctly round a rational to the nearest IEEE-754 binary64 value
(sign-symmetric round to nearest, ties to even; overflow and
subnormal underflow do not occur for the magnitudes in this
development). -/
def roundDouble (q : ℚ) : ℚ :=
  if q = 0 then 0 else if q < 0 then -roundPos (-q) else roundPos q

/-- JS numbers: `none` is `NaN`, `some q` a finite binary64 value. -/
abbrev JNum := Option ℚ

/-- Embed a rational constant (exactly representable literals of the
source) as a JS number. -/
def jn (q : ℚ) : JNum := some q

/-- JS `+` on numbers: `NaN` propagates, finite results are rounded. -/
def jsAdd : JNum → JNum → JNum
  | some a, some b => some (roundDouble (a + b))
  | _, _ => none

/-- JS `*` on numbers: `NaN` propagates, finite results are rounded. -/
def jsMul : JNum → JNum → JNum
  | some a, some b => some (roundDouble (a * b))
  | _, _ => none

/-- JS `<=` comparison: any comparison with `NaN` is false. -/
def jsLe : JNum → JNum → Bool
  | some a, some b => decide (a ≤ b)
  | _, _ => false

/-- JS `>=` comparison: any comparison with `NaN` is false. -/
def jsGe : JNum → JNum → Bool
  | some a, some b => decide (b ≤ a)
  | _, _ => false

/-! ### Correctness facts about the rounding model -/

theorem bitLenAux_zero (fuel : Nat) : bitLenAux fuel 0 = 0 := by
  cases fuel <;> simp [bitLenAux]

theorem bitLenAux_spec (fuel n : Nat) (hn : 0 < n) (hf : n ≤ fuel) :
    2 ^ (bitLenAux fuel n - 1) ≤ n ∧ n < 2 ^ bitLenAux fuel n := by
  induction fuel generalizing n with
  | zero => omega
  | succ fuel ih =>
    have hne : ¬ n = 0 := by omega
    rw [bitLenAux, if_neg hne]
    rcases Nat.lt_or_ge n 2 with h2 | h2
    · have hn1 : n = 1 := by omega
      subst hn1
      simp [bitLenAux_zero]
    · have hpos : 0 < n / 2 := Nat.div_pos h2 (by omega)
      have hle : n / 2 ≤ fuel := by omega
      obtain ⟨h3, h4⟩ := ih (n / 2) hpos hle
      have hk : 1 ≤ bitLenAux fuel (n / 2) := by
        by_contra hk0
        have : bitLenAux fuel (n / 2) = 0 := by omega
        rw [this] at h4
        omega
      constructor
      · have : 2 ^ (bitLenAux fuel (n / 2) + 1 - 1) = 2 * 2 ^ (bitLenAux fuel (n / 2) - 1) := by
          rw [Nat.add_sub_cancel]
          calc 2 ^ bitLenAux fuel (n / 2)
              = 2 ^ (bitLenAux fuel (n / 2) - 1 + 1) := by rw [Nat.sub_add_cancel hk]
            _ = 2 * 2 ^ (bitLenAux fuel (n / 2) - 1) := by rw [pow_succ]; ring
        rw [this]
        omega
      · have : 2 ^ (bitLenAux fuel (n / 2) + 1) = 2 * 2 ^ bitLenAux fuel (n / 2) := by
          rw [pow_succ]; ring
        rw [this]
        omega

theorem bitLen_spec (n : Nat) (hn : 0 < n) :
    2 ^ (bitLen n - 1) ≤ n ∧ n < 2 ^ bitLen n :=
  bitLenAux_spec n n hn le_rfl

theorem bitLen_pos (n : Nat) (hn : 0 < n) : 1 ≤ bitLen n := by
  obtain ⟨-, h⟩ := bitLen_spec n hn
  by_contra hk
  have : bitLen n = 0 := by omega
  rw [this] at h
  omega

theorem qpow2_eq_zpow (e : ℤ) : qpow2 e = (2 : ℚ) ^ e := by
  unfold qpow2
  split
  · next h =>
    rw [← Int.toNat_of_nonneg h, zpow_natCast]
    push_cast
    rfl
  · next h =>
    have h2 : ((-e).toNat : ℤ) = -e := Int.toNat_of_nonneg (by omega)
    have h3 : ((2 ^ (-e).toNat : ℕ) : ℚ) = (2 : ℚ) ^ (-e : ℤ) := by
      push_cast
      rw [← zpow_natCast (2 : ℚ) (-e).toNat, h2]
    rw [h3, ← zpow_neg, neg_neg]

theorem qpow2_pos (e : ℤ) : 0 < qpow2 e := by
  rw [qpow2_eq_zpow]
  positivity

theorem qpow2_add (a b : ℤ) : qpow2 (a + b) = qpow2 a * qpow2 b := by
  rw [qpow2_eq_zpow, qpow2_eq_zpow, qpow2_eq_zpow, zpow_add₀ (by norm_num : (2:ℚ) ≠ 0)]

theorem qpow2_zero : qpow2 0 = 1 := by
  rw [qpow2_eq_zpow, zpow_zero]

theorem qpow2_natCast (k : ℕ) : qpow2 (k : ℤ) = ((2 ^ k : ℕ) : ℚ) := by
  simp [qpow2]

theorem floorLog2_spec (q : ℚ) (hq : 0 < q) :
    qpow2 (floorLog2 q) ≤ q ∧ q < qpow2 (floorLog2 q + 1) := by
  have hnumpos : 0 < q.num := Rat.num_pos.mpr hq
  set n := q.num.natAbs with hn_def
  set d := q.den with hd_def
  have hn : 0 < n := Int.natAbs_pos.mpr (by omega)
  have hd : 0 < d := q.den_pos
  have hq' : q = (n : ℚ) / (d : ℚ) := by
    have h3 : (n : ℚ) = (q.num : ℚ) := by
      rw [hn_def, Int.cast_natAbs]
      exact_mod_cast abs_of_pos hnumpos
    rw [h3, hd_def, Rat.num_div_den q]
  obtain ⟨hnl, hnu⟩ := bitLen_spec n hn
  obtain ⟨hdl, hdu⟩ := bitLen_spec d hd
  have hbn := bitLen_pos n hn
  have hbd := bitLen_pos d hd
  set bn := bitLen n with hbn_def
  set bd := bitLen d with hbd_def
  -- cast the bitLen bounds into ℚ with integer exponents
  have cast_pow : ∀ k : ℕ, ((2 ^ k : ℕ) : ℚ) = (2 : ℚ) ^ (k : ℤ) := by
    intro k
    rw [← qpow2_natCast, qpow2_eq_zpow]
  have hnu' : (n : ℚ) < (2 : ℚ) ^ (bn : ℤ) := by
    rw [← cast_pow]
    exact_mod_cast hnu
  have hnl' : (2 : ℚ) ^ ((bn : ℤ) - 1) ≤ (n : ℚ) := by
    have : ((bn : ℤ) - 1) = ((bn - 1 : ℕ) : ℤ) := by omega
    rw [this, ← cast_pow]
    exact_mod_cast hnl
  have hdu' : (d : ℚ) < (2 : ℚ) ^ (bd : ℤ) := by
    rw [← cast_pow]
    exact_mod_cast hdu
  have hdl' : (2 : ℚ) ^ ((bd : ℤ) - 1) ≤ (d : ℚ) := by
    have : ((bd : ℤ) - 1) = ((bd - 1 : ℕ) : ℤ) := by omega
    rw [this, ← cast_pow]
    exact_mod_cast hdl
  have hA : q < (2 : ℚ) ^ ((bn : ℤ) - (bd : ℤ) + 1) := by
    have h := div_lt_div₀ hnu' hdl' (by positivity) (by positivity)
    rw [← hq'] at h
    calc q < (2 : ℚ) ^ (bn : ℤ) / (2 : ℚ) ^ ((bd : ℤ) - 1) := h
      _ = (2 : ℚ) ^ ((bn : ℤ) - ((bd : ℤ) - 1)) := by
          rw [← zpow_sub₀ (by norm_num : (2:ℚ) ≠ 0)]
      _ = (2 : ℚ) ^ ((bn : ℤ) - (bd : ℤ) + 1) := by ring_nf
  have hB : (2 : ℚ) ^ ((bn : ℤ) - (bd : ℤ) - 1) < q := by
    have h := div_lt_div₀' hnl' hdu' (by exact_mod_cast hn) (by exact_mod_cast hd)
    rw [← hq'] at h
    calc (2 : ℚ) ^ ((bn : ℤ) - (bd : ℤ) - 1)
        = (2 : ℚ) ^ (((bn : ℤ) - 1) - (bd : ℤ)) := by ring_nf
      _ = (2 : ℚ) ^ ((bn : ℤ) - 1) / (2 : ℚ) ^ (bd : ℤ) := by
          rw [← zpow_sub₀ (by norm_num : (2:ℚ) ≠ 0)]
      _ < q := h
  have he0 : (bitLen q.num.natAbs : ℤ) - (bitLen q.den : ℤ) = (bn : ℤ) - (bd : ℤ) := by
    rw [hbn_def, hbd_def, hn_def, hd_def]
  unfold floorLog2
  rw [he0]
  set e0 : ℤ := (bn : ℤ) - (bd : ℤ) with he0_def
  by_cases hcase : q < qpow2 e0
  · rw [if_pos hcase]
    constructor
    · rw [qpow2_eq_zpow]
      calc (2 : ℚ) ^ (e0 - 1) = (2 : ℚ) ^ ((bn : ℤ) - (bd : ℤ) - 1) := by rw [he0_def]
        _ ≤ q := le_of_lt hB
    · rw [qpow2_eq_zpow]
      have : e0 - 1 + 1 = e0 := by ring
      rw [this, ← qpow2_eq_zpow]
      exact hcase
  · rw [if_neg hcase]
    constructor
    · exact le_of_not_lt hcase
    · rw [qpow2_eq_zpow]
      calc q < (2 : ℚ) ^ ((bn : ℤ) - (bd : ℤ) + 1) := hA
        _ = (2 : ℚ) ^ (e0 + 1) := by rw [he0_def]

theorem ratFloor_intCast (k : ℤ) : Rat.floor ((k : ℚ)) = k := by
  rw [Rat.floor_def']
  simp

theorem rdEven_intCast (k : ℤ) : rdEven ((k : ℚ)) = k := by
  simp only [rdEven, ratFloor_intCast, sub_self]
  norm_num

/-- A rational is representable as an IEEE-754 binary64 value when it is
`m * 2 ^ e` with a 53-bit signed mantissa. -/
def repDouble (q : ℚ) : Prop := ∃ m e : ℤ, m.natAbs < 2 ^ 53 ∧ q = (m : ℚ) * qpow2 e

theorem qpow2_53 : qpow2 53 = ((2 : ℚ)) ^ (53 : ℕ) := by
  rw [show (53 : ℤ) = ((53 : ℕ) : ℤ) by norm_num, qpow2_natCast]
  push_cast
  rfl

theorem roundPos_eq_self (q : ℚ) (hq : 0 < q) (h : repDouble q) : roundPos q = q := by
  obtain ⟨m, e, hm, hqe⟩ := h
  have hmpos : 0 < m := by
    by_contra hm0
    push_neg at hm0
    have h1 : (m : ℚ) ≤ 0 := by exact_mod_cast hm0
    nlinarith [qpow2_pos e]
  have key : roundPos q
      = ((rdEven (q * qpow2 (-(floorLog2 q - 52))) : ℤ) : ℚ) * qpow2 (floorLog2 q - 52) := rfl
  obtain ⟨hL1, hL2⟩ := floorLog2_spec q hq
  set L := floorLog2 q with hL_def
  set E : ℤ := L - 52 with hE_def
  have heE : E ≤ e := by
    by_contra hlt
    push_neg at hlt
    have hmq : (m : ℚ) < ((2 : ℚ)) ^ (53 : ℕ) := by
      have h2 : m < 2 ^ 53 := by omega
      exact_mod_cast h2
    have h1 : q < qpow2 (e + 53) := by
      rw [hqe]
      calc (m : ℚ) * qpow2 e < ((2 : ℚ)) ^ (53 : ℕ) * qpow2 e :=
            mul_lt_mul_of_pos_right hmq (qpow2_pos e)
        _ = qpow2 53 * qpow2 e := by rw [qpow2_53]
        _ = qpow2 (e + 53) := by rw [← qpow2_add]; ring_nf
    have h2 : qpow2 (e + 53) ≤ qpow2 L := by
      rw [qpow2_eq_zpow, qpow2_eq_zpow]
      exact zpow_le_zpow_right₀ (by norm_num) (by omega)
    exact lt_irrefl q (lt_of_lt_of_le h1 (le_trans h2 hL1))
  set k : ℕ := (e - E).toNat with hk_def
  have hx : q * qpow2 (-E) = ((m * 2 ^ k : ℤ) : ℚ) := by
    rw [hqe, mul_assoc, ← qpow2_add]
    have h5 : e + -E = (k : ℤ) := by omega
    rw [h5, qpow2_natCast]
    push_cast
    ring
  rw [key, hx, rdEven_intCast, hqe]
  push_cast
  have h6 : ((2 : ℚ)) ^ k * qpow2 E = qpow2 e := by
    have h7 : e = (k : ℤ) + E := by omega
    rw [h7, qpow2_add, qpow2_natCast]
    push_cast
    ring
  calc (m : ℚ) * ((2 : ℚ)) ^ k * qpow2 E = (m : ℚ) * (((2 : ℚ)) ^ k * qpow2 E) := by ring
    _ = (m : ℚ) * qpow2 e := by rw [h6]

theorem roundDouble_eq_self (q : ℚ) (h : repDouble q) : roundDouble q = q := by
  unfold roundDouble
  by_cases h0 : q = 0
  · rw [if_pos h0, h0]
  · rw [if_neg h0]
    by_cases hneg : q < 0
    · rw [if_pos hneg]
      have hrep : repDouble (-q) := by
        obtain ⟨m, e, hm, hqe⟩ := h
        exact ⟨-m, e, by simpa using hm, by rw [hqe]; push_cast; ring⟩
      rw [roundPos_eq_self (-q) (by linarith) hrep, neg_neg]
    · rw [if_neg hneg]
      exact roundPos_eq_self q (lt_of_le_of_ne (le_of_not_lt hneg) (Ne.symm h0)) h

theorem roundDouble_intCast (k : ℤ) (hk : k.natAbs < 2 ^ 53) :
    roundDouble ((k : ℚ)) = k :=
  roundDouble_eq_self _ ⟨k, 0, hk, by rw [qpow2_zero]; ring⟩

theorem roundDouble_natCast (n : ℕ) (hn : n < 2 ^ 53) :
    roundDouble ((n : ℚ)) = n := by
  have h := roundDouble_intCast (n : ℤ) (by omega)
  push_cast at h
  exact h

/-! ## Characters and strings (JS strings as `List Char`) -/

/-- ASCII digit test (the regexes' `\d` and the digit scan of
`parseInt`/`parseFloat`). -/
def isDigitC (c : Char) : Bool := 48 ≤ c.toNat && c.toNat ≤ 57

/-- Numeric value of an ASCII digit. -/
def digitToNat (c : Char) : ℕ := c.toNat - 48

/-- ASCII digit character for a value `0`-`9`. -/
def digitChar (d : ℕ) : Char := Char.ofNat (48 + d)

/-- JS whitespace (`\s` and the leading-whitespace skip of the numeric
parsers), restricted to the ASCII whitespace characters, the only ones
arising in this development. -/
def wsChar (c : Char) : Bool :=
  c == ' ' || c == '\t' || c == '\n' || c == '\r' || c == '\x0b' || c == '\x0c'

/-- Value of a digit string, most significant digit first. -/
def digitsVal (l : List Char) : ℕ := l.foldl (fun acc c => 10 * acc + digitToNat c) 0

/-- Value of the fractional-digit string after a decimal point. -/
def fracVal (l : List Char) : ℚ := (digitsVal l : ℚ) / ((10 : ℚ)) ^ l.length

/-- JS `parseInt(str, 10)`: skip leading whitespace, optional sign,
then a maximal digit run; `NaN` when no digit is found, otherwise the
value (as a correctly rounded double).  Trailing garbage is ignored. -/
def parseIntJS (l : List Char) : JNum :=
  match l.dropWhile wsChar with
  | '-' :: r =>
    let ds := r.takeWhile isDigitC
    if ds.isEmpty then none else some (roundDouble (-((digitsVal ds : ℕ) : ℚ)))
  | '+' :: r =>
    let ds := r.takeWhile isDigitC
    if ds.isEmpty then none else some (roundDouble (((digitsVal ds : ℕ) : ℚ)))
  | r =>
    let ds := r.takeWhile isDigitC
    if ds.isEmpty then none else some (roundDouble (((digitsVal ds : ℕ) : ℚ)))

/-- Magnitude part of JS `parseFloat`: integer digits, an optional
point, fractional digits.  (Exponent notation never occurs in the
inputs of this component and is not modelled.) -/
def parseFloatCore (l : List Char) : Option ℚ :=
  let ds := l.takeWhile isDigitC
  match l.dropWhile isDigitC with
  | '.' :: r2 =>
    let fs := r2.takeWhile isDigitC
    if ds.isEmpty && fs.isEmpty then none
    else some ((digitsVal ds : ℚ) + fracVal fs)
  | _ => if ds.isEmpty then none else some ((digitsVal ds : ℚ))

/-- JS `parseFloat(str)`: skip leading whitespace, optional sign, then
the decimal magnitude, correctly rounded; `NaN` when no digits. -/
def parseFloatJS (l : List Char) : JNum :=
  match l.dropWhile wsChar with
  | '-' :: r => (parseFloatCore r).map (fun q => roundDouble (-q))
  | '+' :: r => (parseFloatCore r).map roundDouble
  | r => (parseFloatCore r).map roundDouble

/-- JS `String.prototype.split` with a single-character separator. -/
def splitChar (sep : Char) : List Char → List (List Char)
  | [] => [[]]
  | c :: t =>
    if c == sep then [] :: splitChar sep t
    else
      match splitChar sep t with
      | [] => [[c]]
      | h :: r => (c :: h) :: r

/-- JS `String.prototype.replace` with a one-character pattern: replace
the first occurrence only. -/
def replFirst (a b : Char) : List Char → List Char
  | [] => []
  | c :: t => if c == a then b :: t else c :: replFirst a b t

/-- `parseInt(parts[i], 10)`: a missing element is `undefined`, and
`parseInt(undefined, 10)` is `NaN`. -/
def parseIntAt (ps : List (List Char)) (i : ℕ) : JNum :=
  match ps.get? i with
  | some p => parseIntJS p
  | none => none

/-- `parseFloat(parts[i])`: a missing element is `undefined`, and
`parseFloat(undefined)` is `NaN`. -/
def parseFloatAt (ps : List (List Char)) (i : ℕ) : JNum :=
  match ps.get? i with
  | some p => parseFloatJS p
  | none => none

/-- `SubtitleManager.parseTime` (source lines 179-186): `0` for a
missing or empty argument, otherwise normalize the first comma to a
period, split on `:` and evaluate
`(hours * 3600 + minutes * 60 + seconds) * 1000` in JS double
arithmetic. -/
def parseTimeJS (s : Option (List Char)) : JNum :=
  match s with
  | none => jn 0
  | some l =>
    if l.isEmpty then jn 0
    else
      let parts := splitChar ':' (replFirst ',' '.' l)
      let hours := parseIntAt parts 0
      let minutes := parseIntAt parts 1
      let seconds := parseFloatAt parts 2
      jsMul (jsAdd (jsAdd (jsMul hours (jn 3600)) (jsMul minutes (jn 60))) seconds) (jn 1000)

/-! ## Cue extraction (the SRT/VTT regex scan loops) -/

/-- A parsed subtitle cue (`{start, end, text}` objects pushed by
`parseSRT`/`parseVTT`). -/
structure Cue where
  start : JNum
  «end» : JNum
  text : List Char
deriving DecidableEq

/-- Split the text at the earliest position where the lookahead
`(?=\n\n|\n$|$)` of the cue-text group `([\s\S]*?)` succeeds: the
first component is the lazily matched text group, the second the
unconsumed remainder starting at the lookahead position. -/
def findStop : List Char → List Char × List Char
  | [] => ([], [])
  | '\n' :: '\n' :: rest => ([], '\n' :: '\n' :: rest)
  | ['\n'] => ([], ['\n'])
  | c :: rest =>
    let p := findStop rest
    (c :: p.1, p.2)

/-- Match a fixed-width timestamp `\d{2}:\d{2}:\d{2}<sep>\d{3}` at the
head of the input, returning the 12 matched characters and the rest. -/
def matchTs (sep : Char) : List Char → Option (List Char × List Char)
  | c1 :: c2 :: c3 :: c4 :: c5 :: c6 :: c7 :: c8 :: c9 :: c10 :: c11 :: c12 :: rest =>
    if isDigitC c1 && isDigitC c2 && (c3 == ':') && isDigitC c4 && isDigitC c5 &&
        (c6 == ':') && isDigitC c7 && isDigitC c8 && (c9 == sep) && isDigitC c10 &&
        isDigitC c11 && isDigitC c12 then
      some ([c1, c2, c3, c4, c5, c6, c7, c8, c9, c10, c11, c12], rest)
    else none
  | _ => none

/-- JS `String.prototype.trim`. -/
def trimL (l : List Char) : List Char :=
  ((l.dropWhile wsChar).reverse.dropWhile wsChar).reverse

/-- Attempt the VTT cue pattern
`(\d{2}:\d{2}:\d{2}\.\d{3})\s+-->\s+(\d{2}:\d{2}:\d{2}\.\d{3})(?:[^\n]*)\n([\s\S]*?)(?=\n\n|\n$|$)`
anchored at the head of the input.  All quantifiers are deterministic
here: `\s+` is maximal (no whitespace can start `-->` or a timestamp),
`(?:[^\n]*)` is maximal up to the mandatory newline, and the lazy text
group stops at the earliest lookahead position (`findStop`).  On
success, returns the two timestamp strings, the raw text group and the
remainder at the match end. -/
def tryVTT (l : List Char) : Option ((List Char × List Char × List Char) × List Char) :=
  match matchTs '.' l with
  | none => none
  | some (ts1, r1) =>
    if (r1.takeWhile wsChar).isEmpty then none
    else
      match r1.dropWhile wsChar with
      | '-' :: '-' :: '>' :: r3 =>
        if (r3.takeWhile wsChar).isEmpty then none
        else
          match matchTs '.' (r3.dropWhile wsChar) with
          | none => none
          | some (ts2, r5) =>
            match r5.dropWhile (fun c => !(c == '\n')) with
            | '\n' :: r7 =>
              let p := findStop r7
              some ((ts1, ts2, p.1), p.2)
            | _ => none
      | _ => none

/-- Attempt the SRT cue pattern
`(\d+)\n(\d{2}:\d{2}:\d{2},\d{3}) --> (\d{2}:\d{2}:\d{2},\d{3})\n([\s\S]*?)(?=\n\n|\n$|$)`
anchored at the head of the input (the index group is consumed and
discarded, exactly as in the source). -/
def trySRT (l : List Char) : Option ((List Char × List Char × List Char) × List Char) :=
  if (l.takeWhile isDigitC).isEmpty then none
  else
    match l.dropWhile isDigitC with
    | '\n' :: r2 =>
      match matchTs ',' r2 with
      | none => none
      | some (ts1, r3) =>
        match r3 with
        | ' ' :: '-' :: '-' :: '>' :: ' ' :: r4 =>
          match matchTs ',' r4 with
          | none => none
          | some (ts2, r5) =>
            match r5 with
            | '\n' :: r6 =>
              let p := findStop r6
              some ((ts1, ts2, p.1), p.2)
            | _ => none
        | _ => none
    | _ => none

/-- One global-regex `exec` loop: try the pattern at each successive
position (leftmost match first), and continue after each match at its
end (`lastIndex`).  `fuel` bounds the recursion; every iteration
consumes at least one character, so the input length suffices. -/
def scanCues (try_ : List Char → Option ((List Char × List Char × List Char) × List Char))
    (sep : Char) : ℕ → List Char → List Cue
  | 0, _ => []
  | _, [] => []
  | fuel + 1, l@(_ :: t) =>
    match try_ l with
    | some ((ts1, ts2, txt), rest) =>
      { start := parseTimeJS (some ts1), «end» := parseTimeJS (some ts2),
        text := trimL txt } :: scanCues try_ sep fuel rest
    | none => scanCues try_ sep fuel t

/-- `SubtitleManager.parseSRT` (source lines 126-136) as a pure
function from the normalized text to the pushed cue list. -/
def parseSRT (l : List Char) : List Cue := scanCues trySRT ',' l.length l

/-- `SubtitleManager.parseVTT` (source lines 138-151) as a pure
function from the normalized text to the pushed cue list. -/
def parseVTT (l : List Char) : List Cue := scanCues tryVTT '.' l.length l

/-- First normalization pass of `parseSubtitles`:
`text.replace(/\r\n/g, '\n')`. -/
def replCRLF : List Char → List Char
  | '\r' :: '\n' :: t => '\n' :: replCRLF t
  | c :: t => c :: replCRLF t
  | [] => []

/-- Second normalization pass of `parseSubtitles`:
`.replace(/\r/g, '\n')`. -/
def replCR : List Char → List Char
  | '\r' :: t => '\n' :: replCR t
  | c :: t => c :: replCR t
  | [] => []

/-- `text.replace(/\n/g, '<br>')` used when rendering cue text. -/
def brText : List Char → List Char
  | '\n' :: t => '<' :: 'b' :: 'r' :: '>' :: brText t
  | c :: t => c :: brText t
  | [] => []

/-! ## Appearance settings and resolved style -/

/-- The `settings` object: the four recognized fields, each possibly
absent (`none` models both a missing property and `undefined`). -/
structure JSettings where
  subtitleSize : Option String
  subtitleColor : Option String
  subtitlePosition : Option String
  subtitleBackground : Option String
deriving DecidableEq

/-- JS truthiness of a possibly-absent string property: absent,
`undefined` and `""` are falsy. -/
def jsTruthyStr : Option String → Bool
  | none => false
  | some v => !(v == "")

/-- `x || dflt` for a possibly-absent string property. -/
def jsOrStr (o : Option String) (dflt : String) : String :=
  match o with
  | some v => if v == "" then dflt else v
  | none => dflt

/-- The field-by-field merge performed by `loadSettings`
(source lines 163-166): each recognized field of the parsed object
overwrites the current value only when truthy. -/
def mergeSettings (cur parsed : JSettings) : JSettings where
  subtitleSize := if jsTruthyStr parsed.subtitleSize then parsed.subtitleSize else cur.subtitleSize
  subtitleColor := if jsTruthyStr parsed.subtitleColor then parsed.subtitleColor else cur.subtitleColor
  subtitlePosition :=
    if jsTruthyStr parsed.subtitlePosition then parsed.subtitlePosition else cur.subtitlePosition
  subtitleBackground :=
    if jsTruthyStr parsed.subtitleBackground then parsed.subtitleBackground else cur.subtitleBackground

/-- The concrete visual parameters written to the overlay nodes by
`applyStyles`. -/
structure RStyle where
  fontSize : String
  color : String
  justifyContent : String
  marginTop : String
  marginBottom : String
  textShadow : String
  background : String
deriving DecidableEq

/-- The font-size lookup table of `applyStyles` (source lines 229-235). -/
def sizesMap (k : String) : Option String :=
  if k == "smaller" then some ("2.2em")
  else if k == "small" then some ("2.8em")
  else if k == "medium" then some ("3.5em")
  else if k == "large" then some ("4.5em")
  else if k == "extralarge" then some ("5.5em")
  else none

/-- The pure appearance resolution performed by `applyStyles`
(source lines 225-284): every property recomputed from the settings
with hard defaults. -/
def resolveStyle (conf : JSettings) : RStyle :=
  let position := jsOrStr conf.subtitlePosition ("bottom")
  let bg := jsOrStr conf.subtitleBackground ("drop-shadow")
  { fontSize := (sizesMap (jsOrStr conf.subtitleSize ("medium"))).getD ("3.5em")
    color := jsOrStr conf.subtitleColor ("#ffffff")
    justifyContent :=
      if position == "top" then ("flex-start")
      else if position == "middle" then ("center")
      else ("flex-end")
    marginTop := if position == "top" then ("10%") else ("0")
    marginBottom :=
      if position == "top" then ("0")
      else if position == "bottom-low" then ("2%")
      else if position == "bottom-high" then ("20%")
      else if position == "middle" then ("0")
      else ("10%")
    textShadow :=
      if bg == "drop-shadow" then ("0px 0px 8px rgba(0, 0, 0, 1), 0px 0px 4px rgba(0, 0, 0, 1)")
      else ("none")
    background := if bg == "background" then ("rgba(0, 0, 0, 0.7)") else ("none") }

/-! ## Track-loader URL construction -/

/-- Authentication data consumed by `loadTrack` (`userAuth`). -/
structure Auth where
  serverAddress : String
  accessToken : String
deriving DecidableEq

/-- ASCII `String.prototype.toLowerCase`. -/
def lowerChar (c : Char) : Char :=
  if 65 ≤ c.toNat && c.toNat ≤ 90 then Char.ofNat (c.toNat + 32) else c

/-- Lowercasing of a JS string. -/
def lowerStr (s : String) : String := ⟨s.data.map lowerChar⟩

/-- Format selection of `loadTrack` (source lines 61-69):
`(track.Codec || 'vtt').toLowerCase()`, `subrip` normalized to `srt`,
and everything that is not `srt` requested as `vtt`. -/
def subFormat (codec : Option String) : String :=
  let f0 := lowerStr (jsOrStr codec ("vtt"))
  let f1 := if f0 == "subrip" then ("srt") else f0
  if !(f1 == "srt") then ("vtt") else f1

/-- The subtitle request URL built by `loadTrack` (source lines
75-78).  The source appends the `?api_key=` suffix twice — both
appends are reproduced faithfully. -/
def buildSubtitleUrl (addr token itemId msId idx : String) (codec : Option String) : String :=
  addr ++ ("/Videos/") ++ itemId ++ ("/") ++ msId ++ ("/Subtitles/") ++ idx ++ ("/Stream.")
    ++ subFormat codec ++ ("?api_key=") ++ token ++ ("?api_key=") ++ token

/-! ## The engine state machine -/

/-- The stored `this.activeCue` reference.  JS stores an object
reference; `gen` is the allocation generation of the cue array it came
from and `idx` its position there, so that `gen`/`idx` equality is
exactly JS reference equality (`!==` on line 199).  `cue` is the
referenced object's value and `setAt` a ghost field recording the
clock value of the `update` call that stored it. -/
structure ActiveRef where
  gen : ℕ
  idx : ℕ
  cue : Cue
  setAt : JNum
deriving DecidableEq

/-- The full mutable state of a `SubtitleManager` instance, together
with ghost bookkeeping for the network interaction:
`cuesGen` is bumped whenever `this.cues` is assigned a fresh array;
`hasOverlay` is whether `this.overlay`/`this.innerOverlay` are
non-null; `overlayVisible` is `overlay.style.display === 'flex'`;
`renderedText` is `innerOverlay.innerHTML`; `innerHidden` is whether
the inner node carries the `hide` class; `styleR` the inline styles;
`pendingFetches` the formats of outstanding ajax requests;
`requestedUrls` every URL ever passed to `ajax.request`;
`diagReports` the number of reports sent to `window.debugOverlay`;
`lastTime` the argument of the most recent `update` call. -/
structure SubState where
  cues : List Cue
  cuesGen : ℕ
  activeCue : Option ActiveRef
  settings : JSettings
  isEnabled : Bool
  hasOverlay : Bool
  overlayVisible : Bool
  renderedText : List Char
  innerHidden : Bool
  styleR : RStyle
  pendingFetches : List String
  requestedUrls : List String
  diagReports : ℕ
  lastTime : JNum
deriving DecidableEq

/-- Result of one public call: the state after it (including any
mutations made before an exception), whether it raised, and how many
visual DOM mutations it performed. -/
structure StepRes where
  st : SubState
  threw : Bool
  muts : ℕ
deriving DecidableEq

/-- The state right after `new SubtitleManager(container)` (the
constructor plus `init()`): empty cues, no active cue, empty settings,
disabled, overlay created but hidden. -/
def initState : SubState where
  cues := []
  cuesGen := 0
  activeCue := none
  settings := ⟨none, none, none, none⟩
  isEnabled := false
  hasOverlay := true
  overlayVisible := false
  renderedText := []
  innerHidden := false
  styleR := ⟨"", "", "", "", "", "", ""⟩
  pendingFetches := []
  requestedUrls := []
  diagReports := 0
  lastTime := none

/-- `applyStyles(settings?)` (source lines 221-291).
`this.settings = settings || this.settings` replaces the settings
object wholesale whenever an argument object is passed (all objects
are truthy); then, unless the inner overlay is gone, every style
property is recomputed and rewritten, the outer overlay is forced
visible, and a currently active cue's text is re-rendered. -/
def applyStylesStep (s : SubState) (arg : Option JSettings) : StepRes :=
  let settings' := match arg with
    | some p => p
    | none => s.settings
  if s.hasOverlay then
    { st := { s with
        settings := settings'
        styleR := resolveStyle settings'
        overlayVisible := true
        renderedText := match s.activeCue with
          | some r => brText r.cue.text
          | none => s.renderedText }
      threw := false
      muts := 0 }
  else
    { st := { s with settings := settings' }, threw := false, muts := 0 }

/-- `loadSettings()` (source lines 156-173).  The parameter models the
environment: `none` when no storage or no stored value, `some none`
when the stored string fails to parse (the exception is caught and the
settings left unchanged), `some (some p)` for a parsed object, which
is merged field by field. -/
def loadSettingsStep (s : SubState) (stored : Option (Option JSettings)) : StepRes :=
  match stored with
  | some (some p) => { st := { s with settings := mergeSettings s.settings p }, threw := false, muts := 0 }
  | _ => { st := s, threw := false, muts := 0 }

/-- `parseSubtitles(text, format)` (source lines 111-124): normalize
line endings, reset `this.cues` to a fresh array filled by the
format's parser, then `applyStyles(this.settings)`. -/
def parseSubtitlesStep (s : SubState) (data : List Char) (format : String) : StepRes :=
  let norm := replCR (replCRLF data)
  let cs := if format == "srt" then parseSRT norm else parseVTT norm
  applyStylesStep { s with cues := cs, cuesGen := s.cuesGen + 1 } (some s.settings)

/-- The synchronous part of `loadTrack(track, item, mediaSource, auth)`
(source lines 44-95): reset cues, enable, show the overlay (a throw
when the overlay has been destroyed — the two prior assignments have
already happened), reload settings, re-apply styles, then — if
authentication is available — build the URL and issue the fetch.
`stored` is the storage environment passed to `loadSettings`. -/
def loadTrackIssue (s : SubState) (codec : Option String) (itemId msId idx : String)
    (userAuth : Option Auth) (stored : Option (Option JSettings)) : StepRes :=
  let base := { s with cues := ([] : List Cue), cuesGen := s.cuesGen + 1, isEnabled := true }
  if s.hasOverlay then
    let s1 := { base with overlayVisible := true }
    let s2 := (loadSettingsStep s1 stored).st
    let s3 := (applyStylesStep s2 none).st
    match userAuth with
    | none => { st := s3, threw := false, muts := 0 }
    | some a =>
      let url := buildSubtitleUrl a.serverAddress a.accessToken itemId msId idx codec
      { st := { s3 with
          requestedUrls := s3.requestedUrls ++ [url]
          pendingFetches := s3.pendingFetches ++ [subFormat codec] }
        threw := false
        muts := 0 }
  else
    { st := base, threw := true, muts := 0 }

/-- Arrival of a successful response for the `i`-th outstanding fetch:
the `success` callback runs `parseSubtitles(data, format)`. -/
def arriveSuccess (s : SubState) (i : ℕ) (data : List Char) : StepRes :=
  match s.pendingFetches.get? i with
  | some format => parseSubtitlesStep { s with pendingFetches := s.pendingFetches.eraseIdx i } data format
  | none => { st := s, threw := false, muts := 0 }

/-- Arrival of a failure for the `i`-th outstanding fetch: the `error`
callback only reports to `window.debugOverlay` when that diagnostic
sink exists (`sink`); no state is touched and no retry is issued. -/
def arriveFailure (s : SubState) (i : ℕ) (sink : Bool) : StepRes :=
  match s.pendingFetches.get? i with
  | some _ =>
    { st := { s with
        pendingFetches := s.pendingFetches.eraseIdx i
        diagReports := s.diagReports + (if sink then 1 else 0) }
      threw := false
      muts := 0 }
  | none => { st := s, threw := false, muts := 0 }

/-- `disable()` (source lines 97-104): disable, reset the cue array,
and — when the overlay still exists — hide it and erase the rendered
text.  `this.activeCue` is not touched. -/
def disableStep (s : SubState) : StepRes :=
  if s.hasOverlay then
    { st := { s with
        isEnabled := false
        cues := ([] : List Cue)
        cuesGen := s.cuesGen + 1
        overlayVisible := false
        renderedText := ([] : List Char) }
      threw := false
      muts := 0 }
  else
    { st := { s with isEnabled := false, cues := ([] : List Cue), cuesGen := s.cuesGen + 1 }
      threw := false
      muts := 0 }

/-- `destroy()` (source lines 293-302): `disable()`, detach and drop
both overlay references, reset the cues again and clear the active
cue. -/
def destroyStep (s : SubState) : StepRes :=
  let d := (disableStep s).st
  { st := { d with
      hasOverlay := false
      cues := ([] : List Cue)
      cuesGen := d.cuesGen + 1
      activeCue := none }
    threw := false
    muts := 0 }

/-- The predicate of the cue search on line 196:
`timeMs >= cue.start && timeMs <= cue.end`. -/
def inCue (t : JNum) (c : Cue) : Bool := jsGe t c.start && jsLe t c.«end»

/-- `this.cues.find(...)` together with the position of the found
element (JS returns the first matching object reference). -/
def findCueAux (t : JNum) : List Cue → ℕ → Option (ℕ × Cue)
  | [], _ => none
  | c :: r, i => if inCue t c then some (i, c) else findCueAux t r (i + 1)

/-- JS reference equality `this.activeCue === currentCue` between the
stored reference and the cue found at index `i` of the current
generation. -/
def activeMatches (a : Option ActiveRef) (gen i : ℕ) : Bool :=
  match a with
  | some r => r.gen == gen && r.idx == i
  | none => false

/-- `update(timeMs)` (source lines 192-215).  A `muts` of `1` records
a visual mutation (writing `innerHTML` and toggling the `hide` class);
the assignment to `this.activeCue` on lines 201/210 precedes the
`innerHTML` write, so it survives even when the write throws on a
destroyed overlay. -/
def updateStep (s : SubState) (t : JNum) : StepRes :=
  if !s.isEnabled || s.cues.isEmpty then
    { st := { s with lastTime := t }, threw := false, muts := 0 }
  else
    match findCueAux t s.cues 0 with
    | some (i, c) =>
      if activeMatches s.activeCue s.cuesGen i then
        { st := { s with lastTime := t }, threw := false, muts := 0 }
      else
        if s.hasOverlay then
          { st := { s with
              lastTime := t
              activeCue := some ⟨s.cuesGen, i, c, t⟩
              renderedText := brText c.text
              innerHidden := false }
            threw := false
            muts := 1 }
        else
          { st := { s with lastTime := t, activeCue := some ⟨s.cuesGen, i, c, t⟩ }
            threw := true
            muts := 0 }
    | none =>
      match s.activeCue with
      | none => { st := { s with lastTime := t }, threw := false, muts := 0 }
      | some _ =>
        if s.hasOverlay then
          { st := { s with
              lastTime := t
              activeCue := none
              renderedText := ([] : List Char)
              innerHidden := true }
            threw := false
            muts := 1 }
        else
          { st := { s with lastTime := t, activeCue := none }, threw := true, muts := 0 }

/-- States reachable through the public interface by calls that
complete without raising. -/
inductive Reach : SubState → Prop
  | init : Reach initState
  | load (s : SubState) (codec : Option String) (itemId msId idx : String)
      (ua : Option Auth) (stored : Option (Option JSettings)) :
      Reach s → (loadTrackIssue s codec itemId msId idx ua stored).threw = false →
      Reach (loadTrackIssue s codec itemId msId idx ua stored).st
  | fetchOk (s : SubState) (i : ℕ) (data : List Char) :
      Reach s → Reach (arriveSuccess s i data).st
  | fetchErr (s : SubState) (i : ℕ) (sink : Bool) :
      Reach s → Reach (arriveFailure s i sink).st
  | disable (s : SubState) : Reach s → Reach (disableStep s).st
  | destroy (s : SubState) : Reach s → Reach (destroyStep s).st
  | update (s : SubState) (t : JNum) :
      Reach s → (updateStep s t).threw = false → Reach (updateStep s t).st
  | styles (s : SubState) (arg : Option JSettings) :
      Reach s → Reach (applyStylesStep s arg).st
  | settings (s : SubState) (stored : Option (Option JSettings)) :
      Reach s → Reach (loadSettingsStep s stored).st

/-! ### Field-preservation facts for the steps -/

@[simp] theorem applyStylesStep_isEnabled (s : SubState) (arg : Option JSettings) :
    (applyStylesStep s arg).st.isEnabled = s.isEnabled := by
  cases arg <;> unfold applyStylesStep <;> by_cases h : s.hasOverlay = true <;> simp [h]

@[simp] theorem applyStylesStep_hasOverlay (s : SubState) (arg : Option JSettings) :
    (applyStylesStep s arg).st.hasOverlay = s.hasOverlay := by
  cases arg <;> unfold applyStylesStep <;> by_cases h : s.hasOverlay = true <;> simp [h]

@[simp] theorem applyStylesStep_cues (s : SubState) (arg : Option JSettings) :
    (applyStylesStep s arg).st.cues = s.cues := by
  cases arg <;> unfold applyStylesStep <;> by_cases h : s.hasOverlay = true <;> simp [h]

@[simp] theorem applyStylesStep_cuesGen (s : SubState) (arg : Option JSettings) :
    (applyStylesStep s arg).st.cuesGen = s.cuesGen := by
  cases arg <;> unfold applyStylesStep <;> by_cases h : s.hasOverlay = true <;> simp [h]

@[simp] theorem applyStylesStep_activeCue (s : SubState) (arg : Option JSettings) :
    (applyStylesStep s arg).st.activeCue = s.activeCue := by
  cases arg <;> unfold applyStylesStep <;> by_cases h : s.hasOverlay = true <;> simp [h]

@[simp] theorem applyStylesStep_threw (s : SubState) (arg : Option JSettings) :
    (applyStylesStep s arg).threw = false := by
  cases arg <;> unfold applyStylesStep <;> by_cases h : s.hasOverlay = true <;> simp [h]

@[simp] theorem loadSettingsStep_isEnabled (s : SubState) (stored : Option (Option JSettings)) :
    (loadSettingsStep s stored).st.isEnabled = s.isEnabled := by
  unfold loadSettingsStep; split <;> rfl

@[simp] theorem loadSettingsStep_hasOverlay (s : SubState) (stored : Option (Option JSettings)) :
    (loadSettingsStep s stored).st.hasOverlay = s.hasOverlay := by
  unfold loadSettingsStep; split <;> rfl

@[simp] theorem loadSettingsStep_cues (s : SubState) (stored : Option (Option JSettings)) :
    (loadSettingsStep s stored).st.cues = s.cues := by
  unfold loadSettingsStep; split <;> rfl

@[simp] theorem loadSettingsStep_cuesGen (s : SubState) (stored : Option (Option JSettings)) :
    (loadSettingsStep s stored).st.cuesGen = s.cuesGen := by
  unfold loadSettingsStep; split <;> rfl

@[simp] theorem loadSettingsStep_activeCue (s : SubState) (stored : Option (Option JSettings)) :
    (loadSettingsStep s stored).st.activeCue = s.activeCue := by
  unfold loadSettingsStep; split <;> rfl

@[simp] theorem parseSubtitlesStep_isEnabled (s : SubState) (data : List Char) (format : String) :
    (parseSubtitlesStep s data format).st.isEnabled = s.isEnabled := by
  unfold parseSubtitlesStep; simp

@[simp] theorem parseSubtitlesStep_hasOverlay (s : SubState) (data : List Char) (format : String) :
    (parseSubtitlesStep s data format).st.hasOverlay = s.hasOverlay := by
  unfold parseSubtitlesStep; simp

@[simp] theorem parseSubtitlesStep_activeCue (s : SubState) (data : List Char) (format : String) :
    (parseSubtitlesStep s data format).st.activeCue = s.activeCue := by
  unfold parseSubtitlesStep; simp

@[simp] theorem parseSubtitlesStep_cuesGen (s : SubState) (data : List Char) (format : String) :
    (parseSubtitlesStep s data format).st.cuesGen = s.cuesGen + 1 := by
  unfold parseSubtitlesStep; simp

@[simp] theorem updateStep_isEnabled (s : SubState) (t : JNum) :
    (updateStep s t).st.isEnabled = s.isEnabled := by
  unfold updateStep
  repeat first | rfl | split

@[simp] theorem updateStep_hasOverlay (s : SubState) (t : JNum) :
    (updateStep s t).st.hasOverlay = s.hasOverlay := by
  unfold updateStep
  repeat first | rfl | split

@[simp] theorem updateStep_cues (s : SubState) (t : JNum) :
    (updateStep s t).st.cues = s.cues := by
  unfold updateStep
  repeat first | rfl | split

@[simp] theorem updateStep_cuesGen (s : SubState) (t : JNum) :
    (updateStep s t).st.cuesGen = s.cuesGen := by
  unfold updateStep
  repeat first | rfl | split

theorem loadTrackIssue_ok (s : SubState) (codec : Option String) (itemId msId idx : String)
    (ua : Option Auth) (stored : Option (Option JSettings))
    (h : (loadTrackIssue s codec itemId msId idx ua stored).threw = false) :
    s.hasOverlay = true ∧
    (loadTrackIssue s codec itemId msId idx ua stored).st.hasOverlay = true ∧
    (loadTrackIssue s codec itemId msId idx ua stored).st.isEnabled = true ∧
    (loadTrackIssue s codec itemId msId idx ua stored).st.cues = [] ∧
    (loadTrackIssue s codec itemId msId idx ua stored).st.cuesGen = s.cuesGen + 1 ∧
    (loadTrackIssue s codec itemId msId idx ua stored).st.activeCue = s.activeCue := by
  by_cases hov : s.hasOverlay = true
  · cases ua <;> simp [loadTrackIssue, hov]
  · simp [loadTrackIssue, hov] at h

/-- The overlay nodes exist whenever the engine is enabled — for every
state reachable by non-raising calls. -/
def overlayInv (s : SubState) : Prop := s.isEnabled = true → s.hasOverlay = true

theorem reach_overlayInv (s : SubState) (h : Reach s) : overlayInv s := by
  induction h with
  | init => intro h; simp [initState] at h
  | load s codec itemId msId idx ua stored _ hok _ =>
    obtain ⟨-, h2, -, -, -, -⟩ := loadTrackIssue_ok s codec itemId msId idx ua stored hok
    intro _
    exact h2
  | fetchOk s i data _ ih =>
    intro hen
    unfold arriveSuccess at hen ⊢
    split at hen <;> simp_all [overlayInv]
  | fetchErr s i sink _ ih =>
    intro hen
    unfold arriveFailure at hen ⊢
    split at hen <;> simp_all [overlayInv]
  | disable s _ ih =>
    intro hen
    unfold disableStep at hen
    split at hen <;> simp at hen
  | destroy s _ ih =>
    intro hen
    unfold destroyStep disableStep at hen
    split at hen <;> simp at hen
  | update s t _ _ ih =>
    intro hen
    rw [updateStep_isEnabled] at hen
    rw [updateStep_hasOverlay]
    exact ih hen
  | styles s arg _ ih =>
    intro hen
    rw [applyStylesStep_isEnabled] at hen
    rw [applyStylesStep_hasOverlay]
    exact ih hen
  | settings s stored _ ih =>
    intro hen
    rw [loadSettingsStep_isEnabled] at hen
    rw [loadSettingsStep_hasOverlay]
    exact ih hen

theorem findCueAux_spec (t : JNum) (l : List Cue) (i j : ℕ) (c : Cue)
    (h : findCueAux t l i = some (j, c)) :
    i ≤ j ∧ l.get? (j - i) = some c ∧ inCue t c = true := by
  induction l generalizing i with
  | nil => simp [findCueAux] at h
  | cons hd tl ih =>
    unfold findCueAux at h
    by_cases hc : inCue t hd = true
    · rw [if_pos hc] at h
      simp only [Option.some.injEq, Prod.mk.injEq] at h
      obtain ⟨h1, h2⟩ := h
      subst h1
      subst h2
      simpa using hc
    · rw [if_neg hc] at h
      obtain ⟨h1, h2, h3⟩ := ih (i + 1) h
      refine ⟨by omega, ?_, h3⟩
      have hj : j - i = (j - (i + 1)) + 1 := by omega
      rw [hj]
      simpa using h2

/-- The standing guarantee on `this.activeCue`: whatever it references
was, at the `update(t)` call that stored it, a member of the
then-current cue array whose interval contained `t`; while the cue
array has not been replaced since (`gen` still current), it is a
member of the current `cues`. -/
def cueOk (s : SubState) : Prop :=
  ∀ r, s.activeCue = some r →
    r.gen ≤ s.cuesGen ∧
    (r.gen = s.cuesGen → s.cues.get? r.idx = some r.cue) ∧
    inCue r.setAt r.cue = true

theorem cueOk_of_same (s s' : SubState) (ha : s'.activeCue = s.activeCue)
    (hc : s'.cues = s.cues) (hg : s'.cuesGen = s.cuesGen) (h : cueOk s) : cueOk s' := by
  intro r hr
  rw [ha] at hr
  obtain ⟨h1, h2, h3⟩ := h r hr
  exact ⟨by omega, by rw [hg, hc]; exact h2, h3⟩

theorem cueOk_of_bump (s s' : SubState) (ha : s'.activeCue = s.activeCue)
    (hg : s'.cuesGen = s.cuesGen + 1) (h : cueOk s) : cueOk s' := by
  intro r hr
  rw [ha] at hr
  obtain ⟨h1, -, h3⟩ := h r hr
  exact ⟨by omega, by omega, h3⟩

theorem reach_cueOk (s : SubState) (h : Reach s) : cueOk s := by
  induction h with
  | init =>
    intro r hr
    simp [initState] at hr
  | load s codec itemId msId idx ua stored _ hok ih =>
    obtain ⟨-, -, -, -, h5, h6⟩ := loadTrackIssue_ok s codec itemId msId idx ua stored hok
    exact cueOk_of_bump s _ h6 h5 ih
  | fetchOk s i data _ ih =>
    unfold arriveSuccess
    split
    · exact cueOk_of_bump s _ (by simp) (by simp) ih
    · exact ih
  | fetchErr s i sink _ ih =>
    unfold arriveFailure
    split
    · exact cueOk_of_same s _ rfl rfl rfl ih
    · exact ih
  | disable s _ ih =>
    unfold disableStep
    split
    · exact cueOk_of_bump s _ rfl rfl ih
    · exact cueOk_of_bump s _ rfl rfl ih
  | destroy s _ ih =>
    intro r hr
    unfold destroyStep at hr
    simp at hr
  | update s t _ _ ih =>
    unfold updateStep
    split
    · exact cueOk_of_same s _ rfl rfl rfl ih
    · split
      · next i c hfind =>
        split
        · exact cueOk_of_same s _ rfl rfl rfl ih
        · obtain ⟨-, h2, h3⟩ := findCueAux_spec t s.cues 0 i c hfind
          split
          · intro r hr
            simp only [Option.some.injEq] at hr
            subst hr
            exact ⟨le_refl _, fun _ => by simpa using h2, h3⟩
          · intro r hr
            simp only [Option.some.injEq] at hr
            subst hr
            exact ⟨le_refl _, fun _ => by simpa using h2, h3⟩
      · split
        · exact cueOk_of_same s _ rfl rfl rfl ih
        · split
          · intro r hr
            simp at hr
          · intro r hr
            simp at hr
  | styles s arg _ ih =>
    exact cueOk_of_same s _ (by simp) (by simp) (by simp) ih
  | settings s stored _ ih =>
    exact cueOk_of_same s _ (by simp) (by simp) (by simp) ih

@[simp] theorem activeMatches_self (g i : ℕ) (c : Cue) (t : JNum) :
    activeMatches (some ⟨g, i, c, t⟩) g i = true := by
  simp [activeMatches]

theorem updateStep_snd_noop (s : SubState) (t : JNum) :
    updateStep (updateStep s t).st t = { st := (updateStep s t).st, threw := false, muts := 0 } := by
  by_cases h1 : (!s.isEnabled || s.cues.isEmpty) = true
  · simp only [updateStep, h1, if_true]
  · have hcond : (!s.isEnabled || s.cues.isEmpty) = false := by
      simpa using h1
    rcases hfind : findCueAux t s.cues 0 with - | ⟨i, c⟩
    · rcases hact : s.activeCue with - | r
      · simp [updateStep, hcond, hfind, hact]
      · by_cases hov : s.hasOverlay = true
        · simp [updateStep, hcond, hfind, hact, hov]
        · have hov' : s.hasOverlay = false := by simpa using hov
          simp [updateStep, hcond, hfind, hact, hov']
    · by_cases hm : activeMatches s.activeCue s.cuesGen i = true
      · simp [updateStep, hcond, hfind, hm]
      · have hm' : activeMatches s.activeCue s.cuesGen i = false := by simpa using hm
        by_cases hov : s.hasOverlay = true
        · simp [updateStep, hcond, hfind, hm', hov]
        · have hov' : s.hasOverlay = false := by simpa using hov
          simp [updateStep, hcond, hfind, hm', hov']

theorem updateStep_muts_le_one (s : SubState) (t : JNum) : (updateStep s t).muts ≤ 1 := by
  unfold updateStep
  split
  · norm_num
  · split
    · split
      · norm_num
      · split <;> norm_num
    · split
      · norm_num
      · split <;> norm_num

/-! ## Valid fixed-width timestamps (the claim-side grammar) -/

/-- Two-digit zero-padded decimal field. -/
def pad2 (n : ℕ) : List Char := [digitChar (n / 10), digitChar (n % 10)]

/-- Three-digit zero-padded decimal field. -/
def pad3 (n : ℕ) : List Char := [digitChar (n / 100), digitChar (n / 10 % 10), digitChar (n % 10)]

/-- A valid fixed-width timestamp `HH:MM:SS,mmm` (`comma = true`) or
`HH:MM:SS.mmm` (`comma = false`). -/
def fmtTs (h m s mmm : ℕ) (comma : Bool) : List Char :=
  pad2 h ++ ':' :: (pad2 m ++ ':' :: (pad2 s ++ (if comma then ',' else '.') :: pad3 mmm))

theorem digitChar_spec (d : ℕ) (hd : d ≤ 9) :
    isDigitC (digitChar d) = true ∧ wsChar (digitChar d) = false ∧
    digitChar d ≠ ',' ∧ digitChar d ≠ ':' ∧ digitChar d ≠ '.' ∧
    digitChar d ≠ '-' ∧ digitChar d ≠ '+' ∧ digitToNat (digitChar d) = d := by
  interval_cases d <;> exact ⟨by decide, by decide, by decide, by decide, by decide,
    by decide, by decide, by decide⟩

theorem takeWhile_append_stop (p : Char → Bool) (xs : List Char) (y : Char) (ys : List Char)
    (hx : ∀ c ∈ xs, p c = true) (hy : p y = false) :
    (xs ++ y :: ys).takeWhile p = xs ∧ (xs ++ y :: ys).dropWhile p = y :: ys := by
  induction xs with
  | nil => simp [List.takeWhile, List.dropWhile, hy]
  | cons c cs ih =>
    have hc : p c = true := hx c (by simp)
    have hcs : ∀ x ∈ cs, p x = true := fun x hx' => hx x (by simp [hx'])
    obtain ⟨h1, h2⟩ := ih hcs
    simp [List.takeWhile_cons, List.dropWhile_cons, hc, h1, h2]

theorem takeWhile_all (p : Char → Bool) (xs : List Char) (hx : ∀ c ∈ xs, p c = true) :
    xs.takeWhile p = xs ∧ xs.dropWhile p = [] := by
  induction xs with
  | nil => simp
  | cons c cs ih =>
    have hc : p c = true := hx c (by simp)
    have hcs : ∀ x ∈ cs, p x = true := fun x hx' => hx x (by simp [hx'])
    obtain ⟨h1, h2⟩ := ih hcs
    simp [List.takeWhile_cons, List.dropWhile_cons, hc, h1, h2]

theorem digit_not_ws (c : Char) (h : isDigitC c = true) : wsChar c = false := by
  unfold wsChar
  simp only [Bool.or_eq_false_iff, beq_eq_false_iff_ne, ne_eq]
  refine ⟨⟨⟨⟨⟨?_, ?_⟩, ?_⟩, ?_⟩, ?_⟩, ?_⟩ <;> rintro rfl <;> simp [isDigitC] at h

theorem parseIntJS_digit (c : Char) (r : List Char) (hd : isDigitC c = true) :
    parseIntJS (c :: r) = some (roundDouble ((digitsVal ((c :: r).takeWhile isDigitC) : ℕ) : ℚ)) := by
  have hws : wsChar c = false := digit_not_ws c hd
  have hminus : c ≠ '-' := by rintro rfl; simp [isDigitC] at hd
  have hplus : c ≠ '+' := by rintro rfl; simp [isDigitC] at hd
  have hdrop : (c :: r).dropWhile wsChar = c :: r := by
    simp [List.dropWhile_cons, hws]
  unfold parseIntJS
  rw [hdrop]
  have hne : ((c :: r).takeWhile isDigitC).isEmpty = false := by
    simp [List.takeWhile_cons, hd]
  split
  · next heq =>
    injection heq with h1 h2
    exact absurd h1 hminus
  · next heq =>
    injection heq with h1 h2
    exact absurd h1 hplus
  · simp [hne]

theorem parseFloatJS_digit (c : Char) (r : List Char) (hd : isDigitC c = true) :
    parseFloatJS (c :: r) = (parseFloatCore (c :: r)).map roundDouble := by
  have hws : wsChar c = false := digit_not_ws c hd
  have hminus : c ≠ '-' := by rintro rfl; simp [isDigitC] at hd
  have hplus : c ≠ '+' := by rintro rfl; simp [isDigitC] at hd
  have hdrop : (c :: r).dropWhile wsChar = c :: r := by
    simp [List.dropWhile_cons, hws]
  unfold parseFloatJS
  rw [hdrop]
  split
  · next heq =>
    injection heq with h1 h2
    exact absurd h1 hminus
  · next heq =>
    injection heq with h1 h2
    exact absurd h1 hplus
  · rfl

theorem digitsVal_pad2 (n : ℕ) (hn : n ≤ 99) : digitsVal (pad2 n) = n := by
  have h1 := digitChar_spec (n / 10) (by omega)
  have h2 := digitChar_spec (n % 10) (by omega)
  simp [digitsVal, pad2, List.foldl, h1.2.2.2.2.2.2.2, h2.2.2.2.2.2.2.2]
  omega

theorem digitsVal_pad3 (n : ℕ) (hn : n ≤ 999) : digitsVal (pad3 n) = n := by
  have h1 := digitChar_spec (n / 100) (by omega)
  have h2 := digitChar_spec (n / 10 % 10) (by omega)
  have h3 := digitChar_spec (n % 10) (by omega)
  simp [digitsVal, pad3, List.foldl, h1.2.2.2.2.2.2.2, h2.2.2.2.2.2.2.2, h3.2.2.2.2.2.2.2]
  omega

theorem pad2_digits (n : ℕ) (hn : n ≤ 99) : ∀ c ∈ pad2 n, isDigitC c = true := by
  intro c hc
  have h1 := digitChar_spec (n / 10) (by omega)
  have h2 := digitChar_spec (n % 10) (by omega)
  simp [pad2] at hc
  rcases hc with rfl | rfl
  · exact h1.1
  · exact h2.1

theorem pad3_digits (n : ℕ) (hn : n ≤ 999) : ∀ c ∈ pad3 n, isDigitC c = true := by
  intro c hc
  have h1 := digitChar_spec (n / 100) (by omega)
  have h2 := digitChar_spec (n / 10 % 10) (by omega)
  have h3 := digitChar_spec (n % 10) (by omega)
  simp [pad3] at hc
  rcases hc with rfl | rfl | rfl
  · exact h1.1
  · exact h2.1
  · exact h3.1

theorem parseIntJS_pad2 (n : ℕ) (hn : n ≤ 99) :
    parseIntJS (pad2 n) = some (roundDouble ((n : ℚ))) := by
  have h1 := digitChar_spec (n / 10) (by omega)
  have hpad : pad2 n = digitChar (n / 10) :: [digitChar (n % 10)] := rfl
  rw [hpad, parseIntJS_digit _ _ h1.1, ← hpad]
  obtain ⟨ht, -⟩ := takeWhile_all isDigitC (pad2 n) (pad2_digits n hn)
  rw [ht, digitsVal_pad2 n hn]

theorem parseIntJS_pad2_exact (n : ℕ) (hn : n ≤ 99) :
    parseIntJS (pad2 n) = some ((n : ℚ)) := by
  rw [parseIntJS_pad2 n hn, roundDouble_natCast n (by norm_num; omega)]

theorem parseFloatJS_field (s mmm : ℕ) (hs : s ≤ 99) (hm : mmm ≤ 999) :
    parseFloatJS (pad2 s ++ '.' :: pad3 mmm)
      = some (roundDouble ((s : ℚ) + (mmm : ℚ) / 1000)) := by
  have h1 := digitChar_spec (s / 10) (by omega)
  have hcons : pad2 s ++ '.' :: pad3 mmm
      = digitChar (s / 10) :: (digitChar (s % 10) :: ('.' :: pad3 mmm)) := rfl
  rw [hcons, parseFloatJS_digit _ _ h1.1, ← hcons]
  obtain ⟨ht, hdrp⟩ := takeWhile_append_stop isDigitC (pad2 s) '.' (pad3 mmm)
    (pad2_digits s hs) (by decide)
  obtain ⟨ht3, -⟩ := takeWhile_all isDigitC (pad3 mmm) (pad3_digits mmm hm)
  unfold parseFloatCore
  rw [ht, hdrp]
  have hne : (pad2 s).isEmpty = false := rfl
  simp only [hne, ht3]
  have hlen : (pad3 mmm).length = 3 := rfl
  simp [fracVal, hlen, digitsVal_pad2 s hs, digitsVal_pad3 mmm hm]
  norm_num

theorem splitChar_no_sep (sep : Char) (xs : List Char) (h : ∀ c ∈ xs, c ≠ sep) :
    splitChar sep xs = [xs] := by
  induction xs with
  | nil => rfl
  | cons c cs ih =>
    have hc : (c == sep) = false := by
      simp [h c (by simp)]
    have ih' := ih (fun x hx => h x (by simp [hx]))
    unfold splitChar
    rw [hc]
    simp [ih']

theorem splitChar_append (sep : Char) (xs ys : List Char) (h : ∀ c ∈ xs, c ≠ sep) :
    splitChar sep (xs ++ sep :: ys) = xs :: splitChar sep ys := by
  induction xs with
  | nil =>
    simp only [List.nil_append, splitChar]
    simp
  | cons c cs ih =>
    have hc : (c == sep) = false := by
      simp [h c (by simp)]
    have ih' := ih (fun x hx => h x (by simp [hx]))
    rw [List.cons_append]
    simp only [splitChar]
    simp [hc, ih']

theorem replFirst_no_occ (a b : Char) (xs : List Char) (h : ∀ c ∈ xs, c ≠ a) :
    replFirst a b xs = xs := by
  induction xs with
  | nil => rfl
  | cons c cs ih =>
    have hc : (c == a) = false := by
      simp [h c (by simp)]
    unfold replFirst
    rw [hc]
    simp [ih (fun x hx => h x (by simp [hx]))]

theorem replFirst_hit (a b : Char) (xs ys : List Char) (h : ∀ c ∈ xs, c ≠ a) :
    replFirst a b (xs ++ a :: ys) = xs ++ b :: ys := by
  induction xs with
  | nil =>
    simp only [List.nil_append, replFirst]
    simp
  | cons c cs ih =>
    have hc : (c == a) = false := by
      simp [h c (by simp)]
    rw [List.cons_append]
    simp only [replFirst]
    rw [hc]
    simp [ih (fun x hx => h x (by simp [hx]))]

theorem pad2_not_special (n : ℕ) (hn : n ≤ 99) :
    ∀ c ∈ pad2 n, c ≠ ',' ∧ c ≠ ':' := by
  intro c hc
  have h1 := digitChar_spec (n / 10) (by omega)
  have h2 := digitChar_spec (n % 10) (by omega)
  simp [pad2] at hc
  rcases hc with rfl | rfl
  · exact ⟨h1.2.2.1, h1.2.2.2.1⟩
  · exact ⟨h2.2.2.1, h2.2.2.2.1⟩

theorem pad3_not_special (n : ℕ) (hn : n ≤ 999) :
    ∀ c ∈ pad3 n, c ≠ ',' ∧ c ≠ ':' := by
  intro c hc
  have h1 := digitChar_spec (n / 100) (by omega)
  have h2 := digitChar_spec (n / 10 % 10) (by omega)
  have h3 := digitChar_spec (n % 10) (by omega)
  simp [pad3] at hc
  rcases hc with rfl | rfl | rfl
  · exact ⟨h1.2.2.1, h1.2.2.2.1⟩
  · exact ⟨h2.2.2.1, h2.2.2.2.1⟩
  · exact ⟨h3.2.2.1, h3.2.2.2.1⟩

theorem replFirst_fmtTs (h m s mmm : ℕ) (hh : h ≤ 99) (hm : m ≤ 99) (hs : s ≤ 99)
    (hmmm : mmm ≤ 999) :
    replFirst ',' '.' (fmtTs h m s mmm true) = fmtTs h m s mmm false ∧
    replFirst ',' '.' (fmtTs h m s mmm false) = fmtTs h m s mmm false := by
  have hpre : ∀ c ∈ pad2 h ++ ':' :: (pad2 m ++ ':' :: pad2 s), c ≠ ',' := by
    intro c hc
    simp at hc
    rcases hc with hc | rfl | hc | rfl | hc
    · exact (pad2_not_special h hh c hc).1
    · decide
    · exact (pad2_not_special m hm c hc).1
    · decide
    · exact (pad2_not_special s hs c hc).1
  constructor
  · have hsplit : fmtTs h m s mmm true
        = (pad2 h ++ ':' :: (pad2 m ++ ':' :: pad2 s)) ++ ',' :: pad3 mmm := by
      simp [fmtTs]
    have hsplit' : fmtTs h m s mmm false
        = (pad2 h ++ ':' :: (pad2 m ++ ':' :: pad2 s)) ++ '.' :: pad3 mmm := by
      simp [fmtTs]
    rw [hsplit, hsplit', replFirst_hit ',' '.' _ _ hpre]
  · apply replFirst_no_occ
    intro c hc
    simp [fmtTs] at hc
    rcases hc with hc | rfl | hc | rfl | hc | rfl | hc
    · exact (pad2_not_special h hh c hc).1
    · decide
    · exact (pad2_not_special m hm c hc).1
    · decide
    · exact (pad2_not_special s hs c hc).1
    · decide
    · exact (pad3_not_special mmm hmmm c hc).1

theorem splitChar_fmtTs (h m s mmm : ℕ) (hh : h ≤ 99) (hm : m ≤ 99) (hs : s ≤ 99)
    (hmmm : mmm ≤ 999) :
    splitChar ':' (fmtTs h m s mmm false) = [pad2 h, pad2 m, pad2 s ++ '.' :: pad3 mmm] := by
  unfold fmtTs
  rw [if_neg (by simp)]
  rw [splitChar_append ':' (pad2 h) _ (fun c hc => (pad2_not_special h hh c hc).2)]
  rw [splitChar_append ':' (pad2 m) _ (fun c hc => (pad2_not_special m hm c hc).2)]
  rw [splitChar_no_sep ':' _ ?_]
  intro c hc
  simp at hc
  rcases hc with hc | rfl | hc
  · exact (pad2_not_special s hs c hc).2
  · decide
  · exact (pad3_not_special mmm hmmm c hc).2

theorem qpow2_neg3 : qpow2 (-3) = 1 / 8 := by decide

theorem parseTimeJS_fmtTs (h m s mmm : ℕ) (hh : h ≤ 99) (hm : m ≤ 99) (hs : s ≤ 99)
    (hmmm : mmm ≤ 999) :
    parseTimeJS (some (fmtTs h m s mmm true)) = parseTimeJS (some (fmtTs h m s mmm false)) ∧
    (mmm % 125 = 0 →
      parseTimeJS (some (fmtTs h m s mmm false))
        = some (((((h * 60 + m) * 60 + s) * 1000 + mmm : ℕ) : ℚ))) := by
  obtain ⟨hr1, hr2⟩ := replFirst_fmtTs h m s mmm hh hm hs hmmm
  have hemp1 : (fmtTs h m s mmm true).isEmpty = false := rfl
  have hemp2 : (fmtTs h m s mmm false).isEmpty = false := rfl
  have hsplit := splitChar_fmtTs h m s mmm hh hm hs hmmm
  have h53 : (2 : ℕ) ^ 53 = 9007199254740992 := by norm_num
  constructor
  · simp only [parseTimeJS, hemp1, hemp2, hr1, hr2, Bool.false_eq_true, if_false]
  · intro hdiv
    obtain ⟨j, hj⟩ : ∃ j, mmm = 125 * j := ⟨mmm / 125, by omega⟩
    have hjle : j ≤ 7 := by omega
    simp only [parseTimeJS, hemp2, Bool.false_eq_true, if_false, hr2, hsplit]
    simp only [parseIntAt, parseFloatAt, List.get?]
    rw [parseIntJS_pad2_exact h hh, parseIntJS_pad2_exact m hm,
      parseFloatJS_field s mmm hs hmmm]
    have e1 : jsMul (some ((h : ℚ))) (jn 3600) = some (((3600 * h : ℕ) : ℚ)) := by
      simp only [jsMul, jn]
      congr 1
      rw [show (h : ℚ) * 3600 = (((3600 * h : ℕ)) : ℚ) by push_cast; ring]
      exact roundDouble_natCast _ (by omega)
    have e2 : jsMul (some ((m : ℚ))) (jn 60) = some (((60 * m : ℕ) : ℚ)) := by
      simp only [jsMul, jn]
      congr 1
      rw [show (m : ℚ) * 60 = (((60 * m : ℕ)) : ℚ) by push_cast; ring]
      exact roundDouble_natCast _ (by omega)
    have e3 : jsAdd (some (((3600 * h : ℕ) : ℚ))) (some (((60 * m : ℕ) : ℚ)))
        = some (((3600 * h + 60 * m : ℕ) : ℚ)) := by
      simp only [jsAdd]
      congr 1
      rw [show ((3600 * h : ℕ) : ℚ) + ((60 * m : ℕ) : ℚ) = (((3600 * h + 60 * m : ℕ)) : ℚ) by
        push_cast; ring]
      exact roundDouble_natCast _ (by omega)
    have e4 : roundDouble ((s : ℚ) + (mmm : ℚ) / 1000) = (s : ℚ) + (j : ℚ) / 8 := by
      have hval : (s : ℚ) + (mmm : ℚ) / 1000 = (((8 * s + j : ℕ) : ℤ) : ℚ) * qpow2 (-3) := by
        rw [qpow2_neg3, hj]
        push_cast
        ring
      rw [hval, roundDouble_eq_self _ ⟨((8 * s + j : ℕ) : ℤ), -3, by simp; omega, rfl⟩]
      rw [qpow2_neg3]
      push_cast
      ring
    rw [e4]
    have e5 : jsAdd (some (((3600 * h + 60 * m : ℕ) : ℚ))) (some ((s : ℚ) + (j : ℚ) / 8))
        = some (((3600 * h + 60 * m : ℕ) : ℚ) + (s : ℚ) + (j : ℚ) / 8) := by
      simp only [jsAdd]
      congr 1
      have hval : ((3600 * h + 60 * m : ℕ) : ℚ) + ((s : ℚ) + (j : ℚ) / 8)
          = (((8 * (3600 * h + 60 * m) + 8 * s + j : ℕ) : ℤ) : ℚ) * qpow2 (-3) := by
        rw [qpow2_neg3]
        push_cast
        ring
      rw [hval, roundDouble_eq_self _ ⟨((8 * (3600 * h + 60 * m) + 8 * s + j : ℕ) : ℤ), -3,
        by simp; omega, rfl⟩]
      rw [qpow2_neg3]
      push_cast
      ring
    rw [e1, e2, e3, e5]
    simp only [jsMul, jn]
    congr 1
    rw [show (((3600 * h + 60 * m : ℕ) : ℚ) + (s : ℚ) + (j : ℚ) / 8) * 1000
        = ((((h * 60 + m) * 60 + s) * 1000 + 125 * j : ℕ) : ℚ) by push_cast; ring]
    rw [roundDouble_natCast _ (by omega)]
    rw [hj]

@[simp] theorem applyStylesStep_pendingFetches (s : SubState) (arg : Option JSettings) :
    (applyStylesStep s arg).st.pendingFetches = s.pendingFetches := by
  cases arg <;> unfold applyStylesStep <;> by_cases h : s.hasOverlay = true <;> simp [h]

@[simp] theorem applyStylesStep_requestedUrls (s : SubState) (arg : Option JSettings) :
    (applyStylesStep s arg).st.requestedUrls = s.requestedUrls := by
  cases arg <;> unfold applyStylesStep <;> by_cases h : s.hasOverlay = true <;> simp [h]

@[simp] theorem applyStylesStep_diagReports (s : SubState) (arg : Option JSettings) :
    (applyStylesStep s arg).st.diagReports = s.diagReports := by
  cases arg <;> unfold applyStylesStep <;> by_cases h : s.hasOverlay = true <;> simp [h]

@[simp] theorem applyStylesStep_lastTime (s : SubState) (arg : Option JSettings) :
    (applyStylesStep s arg).st.lastTime = s.lastTime := by
  cases arg <;> unfold applyStylesStep <;> by_cases h : s.hasOverlay = true <;> simp [h]

@[simp] theorem loadSettingsStep_pendingFetches (s : SubState) (stored : Option (Option JSettings)) :
    (loadSettingsStep s stored).st.pendingFetches = s.pendingFetches := by
  unfold loadSettingsStep; split <;> rfl

@[simp] theorem loadSettingsStep_requestedUrls (s : SubState) (stored : Option (Option JSettings)) :
    (loadSettingsStep s stored).st.requestedUrls = s.requestedUrls := by
  unfold loadSettingsStep; split <;> rfl

@[simp] theorem loadSettingsStep_diagReports (s : SubState) (stored : Option (Option JSettings)) :
    (loadSettingsStep s stored).st.diagReports = s.diagReports := by
  unfold loadSettingsStep; split <;> rfl

@[simp] theorem loadSettingsStep_lastTime (s : SubState) (stored : Option (Option JSettings)) :
    (loadSettingsStep s stored).st.lastTime = s.lastTime := by
  unfold loadSettingsStep; split <;> rfl

theorem eraseIdx_concat {α : Type} (xs : List α) (x : α) :
    (xs ++ [x]).eraseIdx xs.length = xs := by
  induction xs with
  | nil => rfl
  | cons c cs ih => simp [List.eraseIdx, ih]

theorem parseTimeJS_nan_first (l : List Char) (hne : l.isEmpty = false)
    (hfirst : parseIntAt (splitChar ':' (replFirst ',' '.' l)) 0 = none) :
    parseTimeJS (some l) = none := by
  simp only [parseTimeJS, hne, Bool.false_eq_true, if_false, hfirst]
  rfl

theorem subFormat_eq (codec : Option String) :
    subFormat codec
      = if lowerStr (jsOrStr codec ("vtt")) = "srt" ∨ lowerStr (jsOrStr codec ("vtt")) = "subrip"
        then ("srt") else ("vtt") := by
  unfold subFormat
  by_cases h1 : lowerStr (jsOrStr codec ("vtt")) = "subrip"
  · simp [h1]
  · by_cases h2 : lowerStr (jsOrStr codec ("vtt")) = "srt" <;> simp [h1, h2]

/-- The engine-and-overlay state visible to the fetch-failure claim:
everything except the ghost network bookkeeping of pending requests and
diagnostic reports (and the array-identity generation counter). -/
def obsCore (s : SubState) :
    List Cue × Option ActiveRef × JSettings × Bool × Bool × Bool × List Char × Bool × RStyle
      × List String × JNum :=
  (s.cues, s.activeCue, s.settings, s.isEnabled, s.hasOverlay, s.overlayVisible,
    s.renderedText, s.innerHidden, s.styleR, s.requestedUrls, s.lastTime)

/-- Every observable field of the state: everything except the
array-identity generation counter `cuesGen`. -/
def obsFull (s : SubState) :
    List Cue × Option ActiveRef × JSettings × Bool × Bool × Bool × List Char × Bool × RStyle
      × List String × List String × ℕ × JNum :=
  (s.cues, s.activeCue, s.settings, s.isEnabled, s.hasOverlay, s.overlayVisible,
    s.renderedText, s.innerHidden, s.styleR, s.pendingFetches, s.requestedUrls,
    s.diagReports, s.lastTime)

/-! ### Concrete reachable fixtures -/

/-- A concrete authentication object for the reachable fixtures. -/
def demoAuth : Auth := ⟨"http://server", "TOKEN"⟩

/-- A concrete VTT payload with a single ten-minute cue. -/
def demoPayload : List Char := ("00:00:00.000 --> 00:10:00.000\nHi\n\n").data

/-- State after `loadTrack` on a fresh instance. -/
def demoLoaded : SubState :=
  (loadTrackIssue initState none ("item1") ("ms1") ("3") (some demoAuth) none).st

/-- State after the fetch response arrives and the cues are installed. -/
def demoWithCues : SubState := (arriveSuccess demoLoaded 0 demoPayload).st

/-- State after `update(5)` has stored the active cue. -/
def demoActive : SubState := (updateStep demoWithCues (jn 5)).st

/-- State after a subsequent `disable()`. -/
def demoDisabled : SubState := (disableStep demoActive).st

theorem demoActive_reach : Reach demoActive :=
  Reach.update demoWithCues (jn 5)
    (Reach.fetchOk demoLoaded 0 demoPayload
      (Reach.load initState none ("item1") ("ms1") ("3") (some demoAuth) none
        Reach.init (by decide)))
    (by decide)

/-! ## The claims -/

/-- C5: for every engine state and time value, calling `update(t)` twice
in succession performs at most one visual mutation in total: the second
call finds the matched cue reference-identical to the stored active cue
(or finds no cue with none active), changes neither the stored state nor
the rendered content, performs no visual mutation and does not throw. -/
theorem subtitle_c5_update_idempotent (s : SubState) (t : JNum) :
    (updateStep (updateStep s t).st t).st = (updateStep s t).st ∧
    (updateStep (updateStep s t).st t).muts = 0 ∧
    (updateStep (updateStep s t).st t).threw = false ∧
    (updateStep s t).muts + (updateStep (updateStep s t).st t).muts ≤ 1 := by
  have h := updateStep_snd_noop s t
  have h2 := updateStep_muts_le_one s t
  rw [h]
  exact ⟨rfl, rfl, rfl, by simpa using h2⟩

/-- C8: `parseVTT` applied to the payload
`"00:00:01.000 --> 00:00:02.500 align:center\nHi\n\n"` produces exactly
one cue `{start := 1000, end := 2500, text := "Hi"}`: the trailing
per-cue settings suffix after the end timestamp is ignored and does not
corrupt the extracted text. -/
theorem subtitle_c8_parseVTT_example :
    parseVTT (("00:00:01.000 --> 00:00:02.500 align:center\nHi\n\n").data)
      = [{ start := jn 1000, «end» := jn 2500, text := ("Hi").data }] := by decide

/-- C10: `destroy()` is idempotent: a second `destroy()` on an already
destroyed instance does not throw (the null guards skip the DOM work)
and leaves every observable field of the instance (cue list, active
cue, overlay references, settings, rendered text, ...) the same as
after the first call; the final state has no cues, no active cue and no
overlay nodes. -/
theorem subtitle_c10_destroy_idempotent (s : SubState) :
    (destroyStep s).threw = false ∧
    (destroyStep (destroyStep s).st).threw = false ∧
    obsFull (destroyStep (destroyStep s).st).st = obsFull (destroyStep s).st ∧
    (destroyStep s).st.cues = [] ∧
    (destroyStep s).st.activeCue = none ∧
    (destroyStep s).st.hasOverlay = false := by
  by_cases hov : s.hasOverlay = true <;>
    simp [destroyStep, disableStep, obsFull, hov]

/-- C2 (counterexample): on the all-non-numeric timestamp string
`"aa:bb:cc"`, `parseTime` returns `NaN` (`parseInt` of the first field
is `NaN` and it propagates through the arithmetic), not the offset `0`
the claim asserts. -/
theorem subtitle_c2_counterexample :
    parseTimeJS (some (("aa:bb:cc").data)) ≠ jn 0 := by decide

/-- C2 (amended): `parseTime` never raises (it is total); a missing or
empty input yields offset `0`; but a non-empty string whose first
`:`-field does not parse as a number yields `NaN`, not `0` — the
zero-degrade applies only to missing/empty input. -/
theorem subtitle_c2_lenient_parse :
    parseTimeJS none = jn 0 ∧
    parseTimeJS (some []) = jn 0 ∧
    (∀ l : List Char, l.isEmpty = false →
      parseIntAt (splitChar ':' (replFirst ',' '.' l)) 0 = none →
      parseTimeJS (some l) = none) :=
  ⟨rfl, rfl, parseTimeJS_nan_first⟩

/-- C2 (witness): the amended theorem applied to the concrete
non-numeric input `"aa:bb:cc"`. -/
theorem subtitle_c2_witness :
    ("aa:bb:cc").data.isEmpty = false ∧
    parseIntAt (splitChar ':' (replFirst ',' '.' (("aa:bb:cc").data))) 0 = none ∧
    parseTimeJS (some (("aa:bb:cc").data)) = none :=
  ⟨by decide, by decide, subtitle_c2_lenient_parse.2.2 (("aa:bb:cc").data) (by decide) (by decide)⟩

/-- C3 (counterexample): `parseTime("00:00:01,001")` evaluates, in the
IEEE-754 double arithmetic the source uses, to
`1000.9999999999999…` — not the exact integer `1001` the claim
asserts (`parseFloat("01.001")` is already inexact and the `* 1000`
rounding does not recover the integer). -/
theorem subtitle_c3_counterexample :
    parseTimeJS (some (("00:00:01,001").data)) ≠ jn 1001 := by decide

/-- C3 (amended): for every valid fixed-width timestamp, the
comma-separated and period-separated spellings parse to the identical
value (the comma is normalized to a period before splitting); and the
result equals the exact integer millisecond offset
`((H*60+M)*60+S)*1000 + mmm` whenever the fractional part `mmm` is a
multiple of 125 (so that every intermediate double is exact); for other
`mmm` the result can differ from the integer by a sub-millisecond
rounding error, as the counterexample shows. -/
theorem subtitle_c3_separator_invariance (h m s mmm : ℕ) (hh : h ≤ 99) (hm : m ≤ 99)
    (hs : s ≤ 99) (hmmm : mmm ≤ 999) :
    parseTimeJS (some (fmtTs h m s mmm true)) = parseTimeJS (some (fmtTs h m s mmm false)) ∧
    (mmm % 125 = 0 →
      parseTimeJS (some (fmtTs h m s mmm false))
        = some (((((h * 60 + m) * 60 + s) * 1000 + mmm : ℕ) : ℚ))) :=
  parseTimeJS_fmtTs h m s mmm hh hm hs hmmm

/-- C3 (witness): the amended theorem at `01:02:03,250`: both
spellings agree and the value is exactly `3723250` ms. -/
theorem subtitle_c3_witness :
    parseTimeJS (some (fmtTs 1 2 3 250 true)) = parseTimeJS (some (fmtTs 1 2 3 250 false)) ∧
    parseTimeJS (some (fmtTs 1 2 3 250 false)) = some ((3723250 : ℚ)) := by
  have h := subtitle_c3_separator_invariance 1 2 3 250 (by norm_num) (by norm_num)
    (by norm_num) (by norm_num)
  refine ⟨h.1, ?_⟩
  rw [h.2 (by norm_num)]
  norm_num

/-- A concrete state whose settings carry only a subtitle size, for the
C6 counterexample. -/
def c6State : SubState := { initState with settings := ⟨some ("large"), none, none, none⟩ }

/-- C6 (counterexample): passing the partial config
`{subtitleColor := "#ff0000"}` to `applyStyles` replaces the settings
object wholesale (`this.settings = settings || this.settings`), so the
previously resolved `subtitleSize = "large"` is lost instead of being
retained. -/
theorem subtitle_c6_counterexample :
    (applyStylesStep c6State (some ⟨none, some ("#ff0000"), none, none⟩)).st.settings.subtitleSize
      ≠ c6State.settings.subtitleSize := by decide

/-- C6 (amended): only `loadSettings` merges field by field — a stored
field that is absent (or falsy) leaves the current value untouched —
whereas `applyStyles` with a (truthy) argument object replaces the
settings wholesale, so fields absent from its argument are dropped and
later resolve to the hard defaults; `applyStyles()` with no argument
keeps the current settings. -/
theorem subtitle_c6_settings_merge :
    (∀ cur p : JSettings, jsTruthyStr p.subtitleSize = false →
      (mergeSettings cur p).subtitleSize = cur.subtitleSize) ∧
    (∀ cur p : JSettings, jsTruthyStr p.subtitleColor = false →
      (mergeSettings cur p).subtitleColor = cur.subtitleColor) ∧
    (∀ cur p : JSettings, jsTruthyStr p.subtitlePosition = false →
      (mergeSettings cur p).subtitlePosition = cur.subtitlePosition) ∧
    (∀ cur p : JSettings, jsTruthyStr p.subtitleBackground = false →
      (mergeSettings cur p).subtitleBackground = cur.subtitleBackground) ∧
    (∀ (s : SubState) (p : JSettings), (applyStylesStep s (some p)).st.settings = p) ∧
    (∀ s : SubState, (applyStylesStep s none).st.settings = s.settings) := by
  refine ⟨?_, ?_, ?_, ?_, ?_, ?_⟩
  · intro cur p h; simp [mergeSettings, h]
  · intro cur p h; simp [mergeSettings, h]
  · intro cur p h; simp [mergeSettings, h]
  · intro cur p h; simp [mergeSettings, h]
  · intro s p
    unfold applyStylesStep
    by_cases h : s.hasOverlay = true <;> simp [h]
  · intro s
    unfold applyStylesStep
    by_cases h : s.hasOverlay = true <;> simp [h]

/-- C6 (witness): the `loadSettings` merge at a concrete pair — a
stored object without a size keeps the current `"large"`. -/
theorem subtitle_c6_witness :
    jsTruthyStr (JSettings.mk none (some ("#ff0000")) none none).subtitleSize = false ∧
    (mergeSettings (JSettings.mk (some ("large")) none none none)
        (JSettings.mk none (some ("#ff0000")) none none)).subtitleSize
      = (JSettings.mk (some ("large")) none none none).subtitleSize :=
  ⟨by decide, subtitle_c6_settings_merge.1 (JSettings.mk (some ("large")) none none none)
    (JSettings.mk none (some ("#ff0000")) none none) (by decide)⟩

/-- C7 (counterexample): for a track whose declared codec is `subrip`,
the claim predicts the URL
`{server}/Videos/{item}/{ms}/Subtitles/{idx}/Stream.vtt?api_key={token}`
(format `vtt`, `api_key` once); the code instead normalizes `subrip` to
`srt` and appends the `?api_key=` suffix twice. -/
theorem subtitle_c7_counterexample :
    ¬ ((loadTrackIssue initState (some ("subrip")) ("it") ("ms") ("3")
        (some ⟨"http://s", "TOK"⟩) none).st.requestedUrls
      = [("http://s/Videos/it/ms/Subtitles/3/Stream.vtt?api_key=TOK" : String)]) := by decide

/-- C7 (amended): `loadTrack` requests exactly one URL of the form
`{server}/Videos/{item}/{ms}/Subtitles/{idx}/Stream.{format}` followed
by the `?api_key={token}` suffix appended twice (the duplication is in
the source, lines 76-78); `format` is `srt` exactly when the
lowercased declared codec (defaulting to `vtt`) is `srt` or `subrip`,
and `vtt` otherwise. -/
theorem subtitle_c7_request_url (s : SubState) (codec : Option String)
    (itemId msId idx : String) (a : Auth) (stored : Option (Option JSettings))
    (hov : s.hasOverlay = true) :
    (loadTrackIssue s codec itemId msId idx (some a) stored).st.requestedUrls
      = s.requestedUrls
        ++ [a.serverAddress ++ "/Videos/" ++ itemId ++ "/" ++ msId ++ "/Subtitles/" ++ idx
            ++ "/Stream."
            ++ (if lowerStr (jsOrStr codec ("vtt")) = "srt"
                  ∨ lowerStr (jsOrStr codec ("vtt")) = "subrip"
                then ("srt") else ("vtt"))
            ++ "?api_key=" ++ a.accessToken ++ "?api_key=" ++ a.accessToken] := by
  simp only [loadTrackIssue, hov, if_true]
  simp [buildSubtitleUrl, subFormat_eq]

/-- C7 (witness): the amended theorem at a concrete request with codec
`subrip`: one URL is issued, with format `srt` and the doubled
`?api_key=` suffix. -/
theorem subtitle_c7_witness :
    initState.hasOverlay = true ∧
    (loadTrackIssue initState (some ("subrip")) ("it") ("ms") ("3")
        (some (Auth.mk ("http://s") ("TOK"))) none).st.requestedUrls
      = [("http://s/Videos/it/ms/Subtitles/3/Stream.srt?api_key=TOK?api_key=TOK" : String)] := by
  have h := subtitle_c7_request_url initState (some ("subrip")) ("it") ("ms") ("3")
    (Auth.mk ("http://s") ("TOK")) none rfl
  refine ⟨rfl, ?_⟩
  rw [h]
  decide

/-- C9: `update(currentTimeMs)` never throws: for every state reachable
through the public interface by calls that complete normally —
including any state after `destroy()` has released the overlay — and
every non-negative integer time, the call completes without raising
(the only dereference, of `innerOverlay`, is reached only when the
engine is enabled, and every reachable enabled state still owns its
overlay nodes). -/
theorem subtitle_c9_update_never_throws (s : SubState) (hr : Reach s) (n : ℕ) :
    (updateStep s (jn ((n : ℚ)))).threw = false := by
  have hinv := reach_overlayInv s hr
  unfold updateStep
  split
  · rfl
  · next hcond =>
    have hcond' : (!s.isEnabled || s.cues.isEmpty) = false := by
      simpa using hcond
    have hen : s.isEnabled = true := by
      cases hb : s.isEnabled
      · simp [hb] at hcond'
      · rfl
    have hov : s.hasOverlay = true := hinv hen
    split
    · split
      · rfl
      · simp [hov]
    · split
      · rfl
      · simp [hov]

/-- C9 (witness): the theorem applied to the concrete reachable state
right after `destroy()` on a fresh instance, at time `0`. -/
theorem subtitle_c9_witness :
    Reach (destroyStep initState).st ∧
    (updateStep (destroyStep initState).st (jn ((0 : ℕ) : ℚ))).threw = false :=
  ⟨Reach.destroy initState Reach.init,
    subtitle_c9_update_never_throws (destroyStep initState).st
      (Reach.destroy initState Reach.init) 0⟩

/-- C1 (counterexample): the reachable state obtained by loading a
track, ticking into its cue and then calling `disable()` has
`isEnabled = false` while `activeCue` is still set — `disable()` resets
the cue array and the rendered text but never assigns
`this.activeCue = null` (only `destroy()` does), refuting both
"activeCue is none whenever enabled is false" and
"disable() clears the active cue". -/
theorem subtitle_c1_counterexample :
    Reach demoDisabled ∧ demoDisabled.isEnabled = false ∧ demoDisabled.activeCue ≠ none :=
  ⟨Reach.disable demoActive demoActive_reach, by decide, by decide⟩

/-- C1 (amended): in every reachable state, `activeCue` is either none
or records a cue that, at the `update(t)` call that stored it,
belonged to the then-current cue list with `start ≤ t ≤ end`; while
the cue array has not been replaced since, the referenced cue is a
member of the current `cues` at its recorded index.  `destroy()` (and
only `destroy()`) clears the active cue; `disable()` clears the cue
list but leaves `activeCue` unchanged, so `activeCue` may be non-none
while `enabled` is false; `loadTrack` likewise replaces the cue list
without resetting `activeCue`. -/
theorem subtitle_c1_active_cue_invariant :
    (∀ s : SubState, Reach s → cueOk s) ∧
    (∀ s : SubState, (destroyStep s).st.activeCue = none) ∧
    (∀ s : SubState, (disableStep s).st.activeCue = s.activeCue ∧ (disableStep s).st.cues = []) ∧
    (∀ (s : SubState) (codec : Option String) (itemId msId idx : String) (ua : Option Auth)
      (stored : Option (Option JSettings)),
      (loadTrackIssue s codec itemId msId idx ua stored).st.activeCue = s.activeCue) := by
  refine ⟨reach_cueOk, ?_, ?_, ?_⟩
  · intro s
    unfold destroyStep
    rfl
  · intro s
    unfold disableStep
    constructor <;> split <;> rfl
  · intro s codec itemId msId idx ua stored
    by_cases hov : s.hasOverlay = true
    · cases ua <;> simp [loadTrackIssue, hov]
    · simp [loadTrackIssue, hov]

/-- C1 (witness): the invariant at the concrete reachable state with an
active cue. -/
theorem subtitle_c1_witness :
    Reach demoActive ∧ cueOk demoActive :=
  ⟨demoActive_reach, subtitle_c1_active_cue_invariant.1 demoActive demoActive_reach⟩

/-- C4 (counterexample): after a `loadTrack` whose fetch fails, the
state does not equal the pre-call state: the synchronous part of
`loadTrack` has already cleared the cues, enabled the engine, shown the
overlay and re-applied the styles before the request was even issued
(here: a fresh instance ends up enabled). -/
theorem subtitle_c4_counterexample :
    (arriveFailure (loadTrackIssue initState none ("it") ("ms") ("3")
        (some (Auth.mk ("http://s") ("TOK"))) none).st 0 true).st ≠ initState := by decide

/-- C4 (amended): when the fetch issued by `loadTrack` fails, no cues
are installed (the cue list stays the empty list the synchronous part
reset it to), the failure callback itself mutates nothing visible (it
only reports to the diagnostic sink when one exists), and exactly one
request was issued in total — no retry.  But the overall state does
not equal the pre-`loadTrack` state: the synchronous part has already
cleared the cues, enabled the engine, shown the overlay and re-applied
styles, as the counterexample records. -/
theorem subtitle_c4_fetch_failure (s : SubState) (codec : Option String)
    (itemId msId idx : String) (a : Auth) (stored : Option (Option JSettings)) (sink : Bool)
    (hov : s.hasOverlay = true) :
    (loadTrackIssue s codec itemId msId idx (some a) stored).threw = false ∧
    (arriveFailure (loadTrackIssue s codec itemId msId idx (some a) stored).st
        ((loadTrackIssue s codec itemId msId idx (some a) stored).st.pendingFetches.length - 1)
        sink).threw = false ∧
    obsCore (arriveFailure (loadTrackIssue s codec itemId msId idx (some a) stored).st
        ((loadTrackIssue s codec itemId msId idx (some a) stored).st.pendingFetches.length - 1)
        sink).st
      = obsCore (loadTrackIssue s codec itemId msId idx (some a) stored).st ∧
    (arriveFailure (loadTrackIssue s codec itemId msId idx (some a) stored).st
        ((loadTrackIssue s codec itemId msId idx (some a) stored).st.pendingFetches.length - 1)
        sink).st.cues = [] ∧
    (arriveFailure (loadTrackIssue s codec itemId msId idx (some a) stored).st
        ((loadTrackIssue s codec itemId msId idx (some a) stored).st.pendingFetches.length - 1)
        sink).st.requestedUrls
      = s.requestedUrls
        ++ [buildSubtitleUrl a.serverAddress a.accessToken itemId msId idx codec] ∧
    (arriveFailure (loadTrackIssue s codec itemId msId idx (some a) stored).st
        ((loadTrackIssue s codec itemId msId idx (some a) stored).st.pendingFetches.length - 1)
        sink).st.diagReports = s.diagReports + (if sink then 1 else 0) ∧
    (arriveFailure (loadTrackIssue s codec itemId msId idx (some a) stored).st
        ((loadTrackIssue s codec itemId msId idx (some a) stored).st.pendingFetches.length - 1)
        sink).st.pendingFetches = s.pendingFetches := by
  have hthrew : (loadTrackIssue s codec itemId msId idx (some a) stored).threw = false := by
    simp [loadTrackIssue, hov]
  obtain ⟨-, -, -, hc, -, -⟩ := loadTrackIssue_ok s codec itemId msId idx (some a) stored hthrew
  have hpend : (loadTrackIssue s codec itemId msId idx (some a) stored).st.pendingFetches
      = s.pendingFetches ++ [subFormat codec] := by
    simp [loadTrackIssue, hov]
  have hurls : (loadTrackIssue s codec itemId msId idx (some a) stored).st.requestedUrls
      = s.requestedUrls ++ [buildSubtitleUrl a.serverAddress a.accessToken itemId msId idx codec] := by
    simp [loadTrackIssue, hov]
  have hdiag : (loadTrackIssue s codec itemId msId idx (some a) stored).st.diagReports
      = s.diagReports := by
    simp [loadTrackIssue, hov]
  have hidx : (loadTrackIssue s codec itemId msId idx (some a) stored).st.pendingFetches.length - 1
      = s.pendingFetches.length := by
    rw [hpend]
    simp
  have hget : (loadTrackIssue s codec itemId msId idx (some a) stored).st.pendingFetches.get?
      ((loadTrackIssue s codec itemId msId idx (some a) stored).st.pendingFetches.length - 1)
      = some (subFormat codec) := by
    rw [hidx, hpend]
    exact List.get?_concat_length _ _
  have hfail : arriveFailure (loadTrackIssue s codec itemId msId idx (some a) stored).st
      ((loadTrackIssue s codec itemId msId idx (some a) stored).st.pendingFetches.length - 1) sink
      = { st := { (loadTrackIssue s codec itemId msId idx (some a) stored).st with
            pendingFetches :=
              (loadTrackIssue s codec itemId msId idx (some a) stored).st.pendingFetches.eraseIdx
                ((loadTrackIssue s codec itemId msId idx (some a) stored).st.pendingFetches.length - 1)
            diagReports := (loadTrackIssue s codec itemId msId idx (some a) stored).st.diagReports
              + (if sink then 1 else 0) }
          threw := false
          muts := 0 } := by
    unfold arriveFailure
    split
    · rfl
    · next heq =>
      rw [hget] at heq
      exact absurd heq (by simp)
  have herase : (loadTrackIssue s codec itemId msId idx (some a) stored).st.pendingFetches.eraseIdx
      ((loadTrackIssue s codec itemId msId idx (some a) stored).st.pendingFetches.length - 1)
      = s.pendingFetches := by
    rw [hidx, hpend]
    exact eraseIdx_concat _ _
  refine ⟨hthrew, ?_, ?_, ?_, ?_, ?_, ?_⟩
  · rw [hfail]
  · rw [hfail]
    simp [obsCore]
  · rw [hfail]
    exact hc
  · rw [hfail]
    exact hurls
  · rw [hfail]
    simp [hdiag]
  · rw [hfail]
    exact herase

/-- C4 (witness): the amended theorem at a concrete failing load on a
fresh instance. -/
theorem subtitle_c4_witness :
    initState.hasOverlay = true ∧
    (arriveFailure (loadTrackIssue initState none ("it") ("ms") ("3")
        (some (Auth.mk ("http://s") ("TOK"))) none).st
      ((loadTrackIssue initState none ("it") ("ms") ("3")
        (some (Auth.mk ("http://s") ("TOK"))) none).st.pendingFetches.length - 1) true).st.cues
      = [] ∧
    (arriveFailure (loadTrackIssue initState none ("it") ("ms") ("3")
        (some (Auth.mk ("http://s") ("TOK"))) none).st
      ((loadTrackIssue initState none ("it") ("ms") ("3")
        (some (Auth.mk ("http://s") ("TOK"))) none).st.pendingFetches.length - 1) true).st.requestedUrls
      = initState.requestedUrls
        ++ [buildSubtitleUrl ("http://s") ("TOK") ("it") ("ms") ("3") none] := by
  have h := subtitle_c4_fetch_failure initState none ("it") ("ms") ("3")
    (Auth.mk ("http://s") ("TOK")) none true rfl
  exact ⟨rfl, h.2.2.2.1, h.2.2.2.2.1⟩
